import Mathlib

/-!
# type-union-test: a tagged-union value with a per-value operations table

A shallow embedding of `src/type-union-test.c` and theorems about it.

Modelling conventions.

* Pointers to owned storage become the owned data itself: a `VAL *` held in a
  container slot is the `VAL` it points to, `char *` is `Option (List Char)`
  (`none` is the null pointer, the list is the text before the terminating NUL),
  `OBJECT *` is `Option OBJECT`.  This is the single-owner discipline the program
  follows; aliasing between a container and the values moved into it is not
  represented.
* `vp->ops` is a reference to an operations table: either the static
  `VAL_OPS_template` or a table supplied from outside, looked up in an
  environment `tables`.
* A function that writes through `VAL *vp` returns the new `VAL` next to its
  `OPS_RESULT`.
* Text written to `stdout` is returned next to the outcome of the call.
* A run that leaves defined behaviour (null or out-of-bounds access, reading a
  union member that was never written) or calls `abort` ends in `Except.error`.
  Allocation (`xmalloc`, `xrealloc`) is taken to succeed.
* `size_t` lengths and capacities are `Nat`: a container whose length reaches
  `2^60` does not fit the address space, so no wrap-around is reachable there.
* `long` is the 64-bit `long` of LP64 targets, `int` is 32 bits.
-/

namespace TypeUnion

/-! ## Data model -/

/-- The enumeration `enum VAL_types`. -/
inductive VAL_types
  | VAL_UNDEFINED
  | VAL_INT32
  | VAL_STRING
  | VAL_OBJECT
  deriving DecidableEq, Repr

/-- The enumeration `enum OPS_RESULT_errors`. -/
inductive OPS_RESULT_errors
  | OPS_RESULT_OK
  | OPS_RESULT_FALSE
  | OPS_RESULT_UNIMPLEMENTED
  | OPS_RESULT_INVALID_TYPE
  | OPS_RESULT_INVALID_INTEGER
  deriving DecidableEq, Repr

/-- How a run ends when it does not return. -/
inductive Fault
  | undefined
  | abort
  deriving DecidableEq, Repr

/-- The pointer `const VAL_OPS *ops` of a value: the static template, or table number `n`
of the environment. -/
inductive OpsRef
  | template
  | custom (n : Nat)
  deriving DecidableEq, Repr

/-- The slot type `struct OBJECT_KV`: the two owned values of a pair. -/
structure OBJECT_KV (V : Type) where
  key : V
  val : V

/-- The container `struct OBJECT`: `array` lists the `len` initialised slots of the buffer,
`cap` is the number of slots the buffer has room for. -/
structure OBJECT (V : Type) where
  array : List (OBJECT_KV V)
  cap : Nat

/-- The field `len` of `struct OBJECT`. -/
def OBJECT.len {V : Type} (o : OBJECT V) : Nat := o.array.length

/-- The union `union VAL_type_data`.  `zero` is the all-zero union of `VAL_template`
(`.type_data = {0}`); the other constructors record the member written last. -/
inductive VAL_type_data (V : Type)
  | zero
  | int32 (n : Int)
  | string (p : Option (List Char))
  | object (p : Option (OBJECT V))

/-- The record `struct VAL`. -/
structure VAL where
  type_id : VAL_types
  ref_count : Nat
  type_data : VAL_type_data VAL
  ops : OpsRef
  constant : Bool
  owned_ptr : Bool

/-- The record `struct OPS_RESULT`. -/
structure OPS_RESULT where
  val : Option VAL
  error : OPS_RESULT_errors

/-- The compound literal `(OPS_RESULT){.error = e}`: the `val` member is null. -/
def OPS_RESULT.of (e : OPS_RESULT_errors) : OPS_RESULT := ⟨none, e⟩

/-- What `VAL_default_move_from_key_val` leaves behind: its result, the container value
afterwards, and the arguments of the `VAL_delete` calls it made, in call order. -/
structure MoveOutcome where
  result : OPS_RESULT
  vp : VAL
  deleted : List VAL

/-- The table `struct VAL_OPS`, its members as functions on the model. -/
structure VAL_OPS where
  set_type : VAL → VAL_types → Except Fault (OPS_RESULT × VAL)
  copy_from_int32 : VAL → Int → Except Fault (OPS_RESULT × VAL)
  copy_from_string : VAL → List Char → Except Fault (OPS_RESULT × VAL)
  move_from_key_val : VAL → VAL → VAL → Except Fault MoveOutcome
  is_equal : VAL → VAL → Except Fault OPS_RESULT
  debug_print : VAL → Except Fault (OPS_RESULT × List Char)

/-- Reading the member `type_data.int32`.  The all-zero union reads as `0`; a union that
holds a pointer has no portable `int32` reading. -/
def VAL_type_data.read_int32 {V : Type} : VAL_type_data V → Option Int
  | .zero => some 0
  | .int32 n => some n
  | .string _ => none
  | .object _ => none

/-- Reading the member `type_data.string`.  The all-zero union reads as the null pointer. -/
def VAL_type_data.read_string {V : Type} : VAL_type_data V → Option (Option (List Char))
  | .zero => some none
  | .string p => some p
  | .int32 _ => none
  | .object _ => none

/-- Reading the member `type_data.object`.  The all-zero union reads as the null pointer. -/
def VAL_type_data.read_object {V : Type} : VAL_type_data V → Option (Option (OBJECT V))
  | .zero => some none
  | .object p => some p
  | .int32 _ => none
  | .string _ => none

/-! ## Result helpers -/

/-- The source function `result_ok`. -/
def result_ok (res : OPS_RESULT) : Bool := res.error = OPS_RESULT_errors.OPS_RESULT_OK

/-! ## C library: `isspace`, `strcmp`, `strtol` -/

/-- `INT_MAX` of a 32-bit `int`. -/
def INT_MAX : Int := 2147483647

/-- `INT_MIN` of a 32-bit `int`. -/
def INT_MIN : Int := -2147483648

/-- `LONG_MAX` of a 64-bit `long`. -/
def LONG_MAX : Int := 9223372036854775807

/-- `LONG_MIN` of a 64-bit `long`. -/
def LONG_MIN : Int := -9223372036854775808

/-- `isspace` in the "C" locale (the program never calls `setlocale`): space, `\t`, `\n`,
`\v`, `\f`, `\r`. -/
def isspace (c : Char) : Bool :=
  c = ' ' || c = '\t' || c = '\n' || c = '\x0b' || c = '\x0c' || c = '\r'

/-- `strcmp`: the sign of the first difference, `0` for equal strings. -/
def strcmp : List Char → List Char → Int
  | [], [] => 0
  | [], _ :: _ => -1
  | _ :: _, [] => 1
  | a :: as, b :: bs =>
    if a = b then strcmp as bs else if a.toNat < b.toNat then -1 else 1

/-- The value of a character as a digit in `strtol`: `0`..`9`, then letters of either case
from 10 on. -/
def digit_value (c : Char) : Option Nat :=
  if '0' ≤ c ∧ c ≤ '9' then some (c.toNat - 48)
  else if 'a' ≤ c ∧ c ≤ 'z' then some (c.toNat - 97 + 10)
  else if 'A' ≤ c ∧ c ≤ 'Z' then some (c.toNat - 65 + 10)
  else none

/-- Whether `c` is a digit of the given base. -/
def is_digit (base : Nat) (c : Char) : Bool :=
  match digit_value c with
  | some d => decide (d < base)
  | none => false

/-- The digit loop of `strtol`: consume digits of `base`, accumulating the magnitude;
returns the magnitude and the text left over. -/
def scan_digits (base : Nat) : List Char → Nat → Nat × List Char
  | [], acc => (acc, [])
  | c :: cs, acc =>
    match digit_value c with
    | some d => if d < base then scan_digits base cs (acc * base + d) else (acc, c :: cs)
    | none => (acc, c :: cs)

/-- The sign step of `strtol`: an optional `+` or `-`. -/
def scan_sign : List Char → Bool × List Char
  | [] => (false, [])
  | c :: cs => if c = '-' then (true, cs) else if c = '+' then (false, cs) else (false, c :: cs)

/-- The base step of `strtol` for base 0: `0x`/`0X` followed by a hexadecimal digit selects
base 16 and is skipped, another leading `0` selects base 8, anything else base 10. -/
def scan_base : List Char → Nat × List Char
  | [] => (10, [])
  | c :: cs =>
    if c = '0' then
      match cs with
      | x :: h :: t =>
        if (x = 'x' ∨ x = 'X') ∧ is_digit 16 h = true then (16, h :: t) else (8, c :: cs)
      | _ => (8, c :: cs)
    else (10, c :: cs)

/-- What a call `strtol(nptr, &endptr, 0)` leaves behind: the returned `long`, the text
`endptr` points to, and whether `errno` was set to `ERANGE`. -/
structure strtol_result where
  value : Int
  endptr : List Char
  erange : Bool

/-- The call `strtol(nptr, &endptr, 0)` of ISO C (C99/C11 7.22.1.4) with a 64-bit `long`:
skip white space, read an optional sign, choose the base from the prefix, consume the
digits.  With no digit there is no conversion: the value is `0` and `endptr` is `nptr`.
A magnitude beyond the range of `long` yields `LONG_MAX` or `LONG_MIN` and `ERANGE`. -/
def strtol (nptr : List Char) : strtol_result :=
  let s1 := nptr.dropWhile isspace
  let sg := scan_sign s1
  let bs := scan_base sg.2
  let sc := scan_digits bs.1 bs.2 0
  if sc.2.length = bs.2.length then
    { value := 0, endptr := nptr, erange := false }
  else if sg.1 then
    if (sc.1 : Int) > -LONG_MIN then { value := LONG_MIN, endptr := sc.2, erange := true }
    else { value := -(sc.1 : Int), endptr := sc.2, erange := false }
  else
    if (sc.1 : Int) > LONG_MAX then { value := LONG_MAX, endptr := sc.2, erange := true }
    else { value := (sc.1 : Int), endptr := sc.2, erange := false }

/-- The constant `MAX_INTSTRING_LEN`. -/
def MAX_INTSTRING_LEN : Nat := 21

/-- The text `snprintf` writes for the conversion `%d`: the decimal digits, after a `-` for a
negative number. -/
def format_d (n : Int) : List Char :=
  if n < 0 then '-' :: Nat.toDigits 10 n.natAbs else Nat.toDigits 10 n.natAbs

/-- The test `*cp == '\0' || isspace(*cp)` on the text `cp` points to; the empty text is
the terminator. -/
def at_end_or_space : List Char → Bool
  | [] => true
  | c :: _ => isspace c

/-! ## Construction -/

/-- The static `OBJECT_template = {0}` that `OBJECT_new` copies: no buffer, `len = 0`,
`cap = 0`. -/
def OBJECT_new : OBJECT VAL := { array := [], cap := 0 }

/-- The static `VAL_template` that `VAL_new` copies. -/
def VAL_template : VAL :=
  { type_id := VAL_types.VAL_UNDEFINED
    ref_count := 1
    type_data := VAL_type_data.zero
    ops := OpsRef.template
    constant := false
    owned_ptr := false }

/-- The source function `VAL_new`: a fresh copy of `VAL_template`. -/
def VAL_new : VAL := VAL_template

/-! ## The default operations -/

/-- The source function `VAL_default_set_type`. -/
def VAL_default_set_type (vp : VAL) (type_id : VAL_types) : Except Fault (OPS_RESULT × VAL) :=
  if vp.type_id ≠ VAL_types.VAL_UNDEFINED ∧ vp.type_id ≠ type_id then
    .ok (OPS_RESULT.of .OPS_RESULT_UNIMPLEMENTED, vp)
  else
    match type_id with
    | VAL_types.VAL_OBJECT =>
      .ok (OPS_RESULT.of .OPS_RESULT_OK,
        { vp with type_id := type_id, type_data := VAL_type_data.object (some OBJECT_new) })
    | _ => .ok (OPS_RESULT.of .OPS_RESULT_OK, { vp with type_id := type_id })

/-- The source function `VAL_default_copy_from_int32`.  In the `VAL_STRING` case the text of
`source` is written into a fresh buffer of `MAX_INTSTRING_LEN` bytes and the run aborts when
`snprintf` reports a text that does not fit. -/
def VAL_default_copy_from_int32 (vp : VAL) (source : Int) : Except Fault (OPS_RESULT × VAL) :=
  match vp.type_id with
  | VAL_types.VAL_INT32 =>
    .ok (OPS_RESULT.of .OPS_RESULT_OK, { vp with type_data := VAL_type_data.int32 source })
  | VAL_types.VAL_STRING =>
    match vp.type_data.read_string with
    | none => .error Fault.undefined
    | some _ =>
      if (format_d source).length ≥ MAX_INTSTRING_LEN then .error Fault.abort
      else
        .ok (OPS_RESULT.of .OPS_RESULT_OK,
          { vp with type_data := VAL_type_data.string (some (format_d source)) })
  | _ => .ok (OPS_RESULT.of .OPS_RESULT_INVALID_TYPE, vp)

/-- The source function `VAL_default_copy_from_string`.  In the `VAL_INT32` case the text
is parsed by `strtol` with base 0 and refused when `errno` is `ERANGE`, when the character
at `endptr` is neither the terminator nor white space, or when the value is outside `int`.
In the `VAL_STRING` case the text is copied into a fresh buffer of `r + 1` bytes, where
`int r = strlen(s)`: the sum is an `int` only while the length is below `INT_MAX`, so the
copy is defined for texts of fewer than `2^31 - 1` characters and undefined from there on. -/
def VAL_default_copy_from_string (vp : VAL) (s : List Char) : Except Fault (OPS_RESULT × VAL) :=
  match vp.type_id with
  | VAL_types.VAL_INT32 =>
    let r := strtol s
    if r.erange = true ∨ ¬ (at_end_or_space r.endptr = true) ∨
        ¬ (r.value ≤ INT_MAX ∧ r.value ≥ INT_MIN) then
      .ok (OPS_RESULT.of .OPS_RESULT_INVALID_INTEGER, vp)
    else
      .ok (OPS_RESULT.of .OPS_RESULT_OK, { vp with type_data := VAL_type_data.int32 r.value })
  | VAL_types.VAL_STRING =>
    match vp.type_data.read_string with
    | none => .error Fault.undefined
    | some _ =>
      if s.length < 2147483647 then
        .ok (OPS_RESULT.of .OPS_RESULT_OK, { vp with type_data := VAL_type_data.string (some s) })
      else .error Fault.undefined
  | _ => .ok (OPS_RESULT.of .OPS_RESULT_INVALID_TYPE, vp)

/-- The source function `VAL_default_is_equal`. -/
def VAL_default_is_equal (v1_p v2_p : VAL) : Except Fault OPS_RESULT :=
  if v1_p.type_id ≠ v2_p.type_id then .ok (OPS_RESULT.of .OPS_RESULT_UNIMPLEMENTED)
  else
    match v1_p.type_id with
    | VAL_types.VAL_INT32 =>
      match v1_p.type_data.read_int32, v2_p.type_data.read_int32 with
      | some a, some b =>
        if a ≠ b then .ok (OPS_RESULT.of .OPS_RESULT_FALSE) else .ok (OPS_RESULT.of .OPS_RESULT_OK)
      | _, _ => .error Fault.undefined
    | VAL_types.VAL_STRING =>
      match v1_p.type_data.read_string, v2_p.type_data.read_string with
      | some (some s1), some (some s2) =>
        if strcmp s1 s2 ≠ 0 then .ok (OPS_RESULT.of .OPS_RESULT_FALSE)
        else .ok (OPS_RESULT.of .OPS_RESULT_OK)
      | _, _ => .error Fault.undefined
    | _ => .ok (OPS_RESULT.of .OPS_RESULT_UNIMPLEMENTED)

/-- The member `is_equal` of the table `ops` refers to: `VAL_default_is_equal` for the
template; a reference to a table the environment does not have is dangling. -/
def ops_is_equal (tables : Nat → Option VAL_OPS) :
    OpsRef → Option (VAL → VAL → Except Fault OPS_RESULT)
  | .template => some VAL_default_is_equal
  | .custom n => (tables n).map (fun t => t.is_equal)

/-- The source function `VAL_is_equal`: each value's own `is_equal` against the other,
the second only when the first reports `OPS_RESULT_OK` (the `&&` short-circuits). -/
def VAL_is_equal (tables : Nat → Option VAL_OPS) (v1_p v2_p : VAL) : Except Fault OPS_RESULT :=
  match ops_is_equal tables v1_p.ops with
  | none => .error Fault.undefined
  | some f1 =>
    match f1 v1_p v2_p with
    | .error e => .error e
    | .ok r1 =>
      if result_ok r1 = true then
        match ops_is_equal tables v2_p.ops with
        | none => .error Fault.undefined
        | some f2 =>
          match f2 v2_p v1_p with
          | .error e => .error e
          | .ok r2 =>
            if result_ok r2 = true then .ok (OPS_RESULT.of .OPS_RESULT_OK)
            else .ok (OPS_RESULT.of .OPS_RESULT_FALSE)
      else .ok (OPS_RESULT.of .OPS_RESULT_FALSE)

/-- The search loop of `VAL_default_move_from_key_val`
(`for (i = 0; i < len; i++) if (result_ok(VAL_is_equal(array[i].key, key))) ... break`),
run on the slots from index `i` on.  Returns the value of `i` at loop exit and the
arguments of the two `VAL_delete` calls made on a hit.  Slot `i` is read inside the
buffer only when `i < cap`. -/
def find_existing_key (tables : Nat → Option VAL_OPS) (key : VAL) (cap : Nat) :
    List (OBJECT_KV VAL) → Nat → Except Fault (Nat × List VAL)
  | [], i => .ok (i, [])
  | kv :: rest, i =>
    if i < cap then
      match VAL_is_equal tables kv.key key with
      | .error e => .error e
      | .ok r =>
        if result_ok r = true then .ok (i, [kv.key, kv.val])
        else find_existing_key tables key cap rest (i + 1)
    else .error Fault.undefined

/-- The source function `VAL_default_move_from_key_val`. -/
def VAL_default_move_from_key_val (tables : Nat → Option VAL_OPS) (vp key val : VAL) :
    Except Fault MoveOutcome :=
  if vp.type_id ≠ VAL_types.VAL_OBJECT then
    .ok { result := OPS_RESULT.of .OPS_RESULT_INVALID_TYPE, vp := vp, deleted := [] }
  else
    match vp.type_data.read_object with
    | some (some o) =>
      match find_existing_key tables key o.cap o.array 0 with
      | .error e => .error e
      | .ok (i, deleted) =>
        if i = o.len then
          let cap := if i = o.cap then (if o.cap > 0 then o.cap * 2 else 4) else o.cap
          if i < cap then
            .ok { result := OPS_RESULT.of .OPS_RESULT_OK
                  vp := { vp with type_data :=
                    VAL_type_data.object (some { array := o.array ++ [{ key := key, val := val }],
                                                 cap := cap }) }
                  deleted := deleted }
          else .error Fault.undefined
        else
          .ok { result := OPS_RESULT.of .OPS_RESULT_OK
                vp := { vp with type_data :=
                  VAL_type_data.object (some { array := o.array.set i { key := key, val := val },
                                               cap := o.cap }) }
                deleted := deleted }
    | _ => .error Fault.undefined

/-! ## Predicates used in the statements -/

/-- The test of the search loop: `VAL_is_equal` returns and reports `OPS_RESULT_OK`. -/
def keys_equal (tables : Nat → Option VAL_OPS) (a b : VAL) : Bool :=
  match VAL_is_equal tables a b with
  | .ok r => result_ok r
  | .error _ => false

/-- The comparison `VAL_is_equal` returns and reports something other than
`OPS_RESULT_OK`. -/
def keys_differ (tables : Nat → Option VAL_OPS) (a b : VAL) : Bool :=
  match VAL_is_equal tables a b with
  | .ok r => !(result_ok r)
  | .error _ => false

/-- The payload a comparison reads agrees with the type: a `VAL_INT32` value has an integer
reading, a `VAL_STRING` value holds a buffer. -/
def payload_ok (v : VAL) : Bool :=
  match v.type_id with
  | VAL_types.VAL_INT32 => v.type_data.read_int32.isSome
  | VAL_types.VAL_STRING =>
    match v.type_data.read_string with
    | some (some _) => true
    | _ => false
  | _ => true

/-- A value that uses the default operations table and whose payload agrees with its
type. -/
def default_key_ok (v : VAL) : Bool := decide (v.ops = OpsRef.template) && payload_ok v

/-- Two values hold the same integer, or the same text. -/
def same_payload (a b : VAL) : Prop :=
  (a.type_id = VAL_types.VAL_INT32 ∧ b.type_id = VAL_types.VAL_INT32 ∧
      ∃ x : Int, a.type_data.read_int32 = some x ∧ b.type_data.read_int32 = some x) ∨
  (a.type_id = VAL_types.VAL_STRING ∧ b.type_id = VAL_types.VAL_STRING ∧
      ∃ s : List Char, a.type_data.read_string = some (some s) ∧
        b.type_data.read_string = some (some s))

/-- No two distinct slots hold keys that `VAL_is_equal` reports equal. -/
def unique_keys (tables : Nat → Option VAL_OPS) (l : List (OBJECT_KV VAL)) : Prop :=
  l.Pairwise (fun a b => keys_equal tables a.key b.key = false)

/-- The two calls of `VAL_is_equal` combined: the second result counts only when the first
is `OPS_RESULT_OK`. -/
def both_directions (d1 d2 : Except Fault OPS_RESULT) : Except Fault OPS_RESULT :=
  match d1 with
  | .error e => .error e
  | .ok r1 =>
    if result_ok r1 = true then
      match d2 with
      | .error e => .error e
      | .ok r2 =>
        if result_ok r2 = true then .ok (OPS_RESULT.of .OPS_RESULT_OK)
        else .ok (OPS_RESULT.of .OPS_RESULT_FALSE)
    else .ok (OPS_RESULT.of .OPS_RESULT_FALSE)

/-- A run of `VAL_default_move_from_key_val` over a list of key/value pairs, each call on
the container the previous one left. -/
def insert_all (tables : Nat → Option VAL_OPS) (vp : VAL) : List (VAL × VAL) → Except Fault VAL
  | [] => .ok vp
  | kv :: rest =>
    match VAL_default_move_from_key_val tables vp kv.1 kv.2 with
    | .error e => .error e
    | .ok out => insert_all tables out.vp rest

/-- The container invariant carried along a run of insertions. -/
def container_ok (tables : Nat → Option VAL_OPS) (vp : VAL) : Prop :=
  vp.type_id = VAL_types.VAL_OBJECT ∧
    ∃ o : OBJECT VAL, vp.type_data = VAL_type_data.object (some o) ∧
      o.len ≤ o.cap ∧ (∀ kv ∈ o.array, default_key_ok kv.key = true) ∧
      unique_keys tables o.array

/-- An environment without any table besides the template. -/
def no_tables : Nat → Option VAL_OPS := fun _ => none

/-- A `VAL_INT32` value holding `n`, as `VAL_new`, `set_type` and `copy_from_string` build
it. -/
def int_val (n : Int) : VAL :=
  { VAL_template with type_id := VAL_types.VAL_INT32, type_data := VAL_type_data.int32 n }

/-- A `VAL_STRING` value holding the text `s`. -/
def string_val (s : List Char) : VAL :=
  { VAL_template with type_id := VAL_types.VAL_STRING, type_data := VAL_type_data.string (some s) }

/-- A `VAL_OBJECT` value holding the container `o`. -/
def object_val (o : OBJECT VAL) : VAL :=
  { VAL_template with type_id := VAL_types.VAL_OBJECT, type_data := VAL_type_data.object (some o) }

/-! ## Integer literals, for the statements about parsing -/

/-- The value of a digit string in positional notation, most significant digit first. -/
def digits_value (base : Nat) (ds : List Char) : Nat :=
  Nat.ofDigits base (ds.reverse.map (fun c => (digit_value c).getD 0))

/-- The integer literals of base-0 parsing, with their base and magnitude: a decimal
literal starts with a digit other than `0`; an octal literal is `0` followed by octal digits;
a hexadecimal literal is `0x` or `0X` followed by at least one hexadecimal digit. -/
inductive int_literal : List Char → Nat → Nat → Prop
  | decimal (d : Char) (ds : List Char) :
      is_digit 10 d = true → d ≠ '0' → (∀ c ∈ ds, is_digit 10 c = true) →
      int_literal (d :: ds) 10 (digits_value 10 (d :: ds))
  | octal (ds : List Char) :
      (∀ c ∈ ds, is_digit 8 c = true) →
      int_literal ('0' :: ds) 8 (digits_value 8 ('0' :: ds))
  | hex (x d : Char) (ds : List Char) :
      (x = 'x' ∨ x = 'X') → (∀ c ∈ d :: ds, is_digit 16 c = true) →
      int_literal ('0' :: x :: d :: ds) 16 (digits_value 16 (d :: ds))

/-- The text of an optional sign: none, `+` or `-`. -/
def sign_chars : Option Bool → List Char
  | none => []
  | some false => ['+']
  | some true => ['-']

/-- The integer a sign and a magnitude denote. -/
def signed_value (sgn : Option Bool) (mag : Nat) : Int :=
  if sgn = some true then -(mag : Int) else (mag : Int)

/-- The text after a literal does not continue it: it is empty, or its first character is
not a digit of the base, and `0` is not followed by `x` and a hexadecimal digit. -/
def literal_ends (base : Nat) (lit : List Char) : List Char → Bool
  | [] => true
  | c :: t =>
    !(is_digit base c) &&
      !(decide (lit = ['0']) && (c = 'x' || c = 'X') &&
        (match t with
          | h :: _ => is_digit 16 h
          | [] => false))

/-- What `strtol` returns for a sign `neg` and a magnitude `mag` with the text `trail`
left over. -/
def strtol_clamp (neg : Bool) (mag : Nat) (trail : List Char) : strtol_result :=
  if neg = true then
    if (mag : Int) > -LONG_MIN then { value := LONG_MIN, endptr := trail, erange := true }
    else { value := -(mag : Int), endptr := trail, erange := false }
  else
    if (mag : Int) > LONG_MAX then { value := LONG_MAX, endptr := trail, erange := true }
    else { value := (mag : Int), endptr := trail, erange := false }

/-! ## Rendering, deletion and the driver -/

mutual
/-- The source function `VAL_default_debug_print`: the text written to `stdout`, next to
the result.  A `VAL_STRING` value without a buffer makes `%s` read a null pointer.  Each key
and value of a container is rendered through the `debug_print` of its own table. -/
def VAL_default_debug_print (tables : Nat → Option VAL_OPS) :
    VAL → Except Fault (OPS_RESULT × List Char)
  | ⟨type_id, _, type_data, _, _, _⟩ =>
    match type_id with
    | VAL_types.VAL_INT32 =>
      match type_data.read_int32 with
      | some n => .ok (OPS_RESULT.of .OPS_RESULT_OK, format_d n)
      | none => .error Fault.undefined
    | VAL_types.VAL_STRING =>
      match type_data.read_string with
      | some (some s) => .ok (OPS_RESULT.of .OPS_RESULT_OK, ['\x22'] ++ s ++ ['\x22'])
      | _ => .error Fault.undefined
    | VAL_types.VAL_OBJECT =>
      match type_data with
      | VAL_type_data.object (some o) =>
        match debug_print_slots tables o.cap o.array 0 with
        | .ok text => .ok (OPS_RESULT.of .OPS_RESULT_OK, ['\x7b'] ++ text ++ ['\x7d'])
        | .error e => .error e
      | _ => .error Fault.undefined
    | VAL_types.VAL_UNDEFINED =>
      .ok (OPS_RESULT.of .OPS_RESULT_OK,
        ['\x22', 'u', 'n', 'd', 'e', 'f', 'i', 'n', 'e', 'd', ' ', 't', 'y', 'p', 'e', '\x22'])
/-- The loop of the `VAL_OBJECT` case of `VAL_default_debug_print`, run on the slots from
index `i` on: `, ` before every slot but the first, the key, `: `, the value. -/
def debug_print_slots (tables : Nat → Option VAL_OPS) (cap : Nat) :
    List (OBJECT_KV VAL) → Nat → Except Fault (List Char)
  | [], _ => .ok []
  | kv :: rest, i =>
    if i < cap then
      let key_text : Except Fault (OPS_RESULT × List Char) :=
        match kv.key.ops with
        | OpsRef.template => VAL_default_debug_print tables kv.key
        | OpsRef.custom n =>
          match tables n with
          | some t => t.debug_print kv.key
          | none => .error Fault.undefined
      let val_text : Except Fault (OPS_RESULT × List Char) :=
        match kv.val.ops with
        | OpsRef.template => VAL_default_debug_print tables kv.val
        | OpsRef.custom n =>
          match tables n with
          | some t => t.debug_print kv.val
          | none => .error Fault.undefined
      match key_text with
      | .error e => .error e
      | .ok (_, kt) =>
        match val_text with
        | .error e => .error e
        | .ok (_, vt) =>
          match debug_print_slots tables cap rest (i + 1) with
          | .error e => .error e
          | .ok more =>
            .ok ((if i > 0 then [',', ' '] else []) ++ kt ++ [':', ' '] ++ vt ++ more)
    else .error Fault.undefined
end

/-- The static table `VAL_OPS_template`. -/
def VAL_OPS_template (tables : Nat → Option VAL_OPS) : VAL_OPS :=
  { set_type := VAL_default_set_type
    copy_from_int32 := VAL_default_copy_from_int32
    copy_from_string := VAL_default_copy_from_string
    move_from_key_val := VAL_default_move_from_key_val tables
    is_equal := VAL_default_is_equal
    debug_print := VAL_default_debug_print tables }

/-- The table a pointer `ops` refers to. -/
def ops_table (tables : Nat → Option VAL_OPS) : OpsRef → Option VAL_OPS
  | OpsRef.template => some (VAL_OPS_template tables)
  | OpsRef.custom n => tables n

/-- The call `vp->ops->set_type(vp, type_id)`. -/
def call_set_type (tables : Nat → Option VAL_OPS) (vp : VAL) (type_id : VAL_types) :
    Except Fault (OPS_RESULT × VAL) :=
  match ops_table tables vp.ops with
  | some t => t.set_type vp type_id
  | none => .error Fault.undefined

/-- The call `vp->ops->copy_from_string(vp, s)`. -/
def call_copy_from_string (tables : Nat → Option VAL_OPS) (vp : VAL) (s : List Char) :
    Except Fault (OPS_RESULT × VAL) :=
  match ops_table tables vp.ops with
  | some t => t.copy_from_string vp s
  | none => .error Fault.undefined

/-- The call `vp->ops->move_from_key_val(vp, key, val)`. -/
def call_move_from_key_val (tables : Nat → Option VAL_OPS) (vp key val : VAL) :
    Except Fault MoveOutcome :=
  match ops_table tables vp.ops with
  | some t => t.move_from_key_val vp key val
  | none => .error Fault.undefined

/-- The call `vp->ops->debug_print(vp)`. -/
def call_debug_print (tables : Nat → Option VAL_OPS) (vp : VAL) :
    Except Fault (OPS_RESULT × List Char) :=
  match ops_table tables vp.ops with
  | some t => t.debug_print vp
  | none => .error Fault.undefined

/-- The source function `result_error_str`. -/
def result_error_str : OPS_RESULT_errors → List Char
  | .OPS_RESULT_OK => ['O', 'K']
  | .OPS_RESULT_FALSE => ['f', 'a', 'l', 's', 'e']
  | .OPS_RESULT_UNIMPLEMENTED => ['u', 'n', 'i', 'm', 'p', 'l', 'e', 'm', 'e', 'n', 't', 'e', 'd']
  | .OPS_RESULT_INVALID_TYPE => ['i', 'n', 'v', 'a', 'l', 'i', 'd', ' ', 't', 'y', 'p', 'e']
  | .OPS_RESULT_INVALID_INTEGER =>
    ['i', 'n', 'v', 'a', 'l', 'i', 'd', ' ', 'i', 'n', 't', 'e', 'g', 'e', 'r']

/-- The source function `result_print`: the text written to `stdout`.  The value of the
result is rendered only when `result_ok(res) && res.val` holds. -/
def result_print (tables : Nat → Option VAL_OPS) (res : OPS_RESULT) : Except Fault (List Char) :=
  let head : List Char :=
    ['\x7b', 'e', 'r', 'r', 'o', 'r', ':', ' ', '\x22'] ++ result_error_str res.error ++ ['\x22']
  if result_ok res = true then
    match res.val with
    | some v =>
      match call_debug_print tables v with
      | .ok (_, text) => .ok (head ++ text ++ ['\x7d'])
      | .error e => .error e
    | none => .ok (head ++ ['\x7d'])
  else .ok (head ++ ['\x7d'])

/-- The source function `result_unwrap`: the text written to `stdout` and either the value
reference of the result or the `abort` that ends the process. -/
def result_unwrap (tables : Nat → Option VAL_OPS) (res : OPS_RESULT) :
    List Char × Except Fault (Option VAL) :=
  if res.error ≠ OPS_RESULT_errors.OPS_RESULT_OK then
    match result_print tables res with
    | .ok text => (text ++ ['\n'], .error Fault.abort)
    | .error e => ([], .error e)
  else ([], .ok res.val)

/-- The decrement `--n` of a `size_t`: 0 wraps to `SIZE_MAX`, `2^64 - 1`. -/
def size_dec (n : Nat) : Nat := if n = 0 then 18446744073709551615 else n - 1

mutual
/-- The source function `VAL_delete`: `none` when the count reaches zero and the storage is
released, the value with its count decremented otherwise. -/
def VAL_delete : VAL → Except Fault (Option VAL)
  | ⟨type_id, ref_count, type_data, ops, constant, owned_ptr⟩ =>
    if size_dec ref_count = 0 then
      match type_id with
      | VAL_types.VAL_STRING =>
        match type_data.read_string with
        | some _ => .ok none
        | none => .error Fault.undefined
      | VAL_types.VAL_OBJECT =>
        match type_data with
        | VAL_type_data.object (some o) =>
          match OBJECT_delete_slots o.cap o.array 0 with
          | .ok _ => .ok none
          | .error e => .error e
        | _ => .error Fault.undefined
      | _ => .ok none
    else
      .ok (some ⟨type_id, size_dec ref_count, type_data, ops, constant, owned_ptr⟩)
/-- The loop of the source function `OBJECT_delete`, run on the slots from index `i` on. -/
def OBJECT_delete_slots (cap : Nat) : List (OBJECT_KV VAL) → Nat → Except Fault Unit
  | [], _ => .ok ()
  | kv :: rest, i =>
    if i < cap then
      match VAL_delete kv.key with
      | .error e => .error e
      | .ok _ =>
        match VAL_delete kv.val with
        | .error e => .error e
        | .ok _ => OBJECT_delete_slots cap rest (i + 1)
    else .error Fault.undefined
end

/-- One `result_unwrap` around a call that writes through its first argument: the text
printed, and the written value when the result is Ok. -/
def unwrap_call {α : Type} (tables : Nat → Option VAL_OPS)
    (call : Except Fault (OPS_RESULT × α)) : List Char × Except Fault α :=
  match call with
  | .error e => ([], .error e)
  | .ok (res, a) =>
    match result_unwrap tables res with
    | (out, .error e) => (out, .error e)
    | (out, .ok _) => (out, .ok a)

/-- Sequencing of two steps of the driver: the texts are concatenated, a step that does not
return ends the run. -/
def and_then {α β : Type} (x : List Char × Except Fault α)
    (f : α → List Char × Except Fault β) : List Char × Except Fault β :=
  match x with
  | (out, .error e) => (out, .error e)
  | (out, .ok a) => (out ++ (f a).1, (f a).2)

/-- The body of the loop of `main` for the arguments `k` and `v`. -/
def main_body (tables : Nat → Option VAL_OPS) (top : VAL) (k v : List Char) :
    List Char × Except Fault VAL :=
  and_then (unwrap_call tables (call_set_type tables VAL_new VAL_types.VAL_INT32)) fun key1 =>
  and_then (unwrap_call tables (call_copy_from_string tables key1 k)) fun key2 =>
  and_then (unwrap_call tables (call_set_type tables VAL_new VAL_types.VAL_STRING)) fun val1 =>
  and_then (unwrap_call tables (call_copy_from_string tables val1 v)) fun val2 =>
  unwrap_call tables
    (match call_move_from_key_val tables top key2 val2 with
      | .error e => .error e
      | .ok out => .ok (out.result, out.vp))

/-- The loop of `main` (`for (i = 1; i < argc - 1; i += 2)`) on the arguments from
`argv[i]` on: it runs while two arguments are left. -/
def main_loop (tables : Nat → Option VAL_OPS) (top : VAL) :
    List (List Char) → List Char × Except Fault VAL
  | k :: v :: rest =>
    and_then (main_body tables top k v) fun top1 => main_loop tables top1 rest
  | _ => ([], .ok top)

/-- The source function `main` on the arguments `argv[1]`, ..., `argv[argc - 1]`: the text
written to `stdout` and the exit status.  The program has no table besides
`VAL_OPS_template`. -/
def main (args : List (List Char)) : List Char × Except Fault Int :=
  and_then (unwrap_call no_tables (call_set_type no_tables VAL_new VAL_types.VAL_OBJECT))
    fun top0 =>
  and_then (main_loop no_tables top0 args) fun top =>
  match call_debug_print no_tables top with
  | .error e => ([], .error e)
  | .ok (_, text) =>
    match VAL_delete top with
    | .error e => (text ++ ['\n'], .error e)
    | .ok _ => (text ++ ['\n'], .ok 0)

/-- An environment whose table 0 is the template with an `is_equal` that reports Ok for
every pair. -/
def always_equal_tables : Nat → Option VAL_OPS := fun n =>
  if n = 0 then
    some { VAL_OPS_template no_tables with is_equal := fun _ _ => .ok (OPS_RESULT.of .OPS_RESULT_OK) }
  else none

/-- The capacities the growth step produces from 0: none, or 4 doubled some number of
times. -/
def cap_form (cap : Nat) : Prop := cap = 0 ∨ ∃ k : Nat, cap = 4 * 2 ^ k

/-- The bounds of a container: the slots fit the buffer and the capacity is 0 or 4 doubled
some number of times. -/
def bounds_ok (o : OBJECT VAL) : Prop := o.len ≤ o.cap ∧ cap_form o.cap

/-- The values the public operations build: a fresh value (`VAL_new`), and what
`set_type`, `copy_from_int32`, `copy_from_string` and `move_from_key_val` leave when they
return, the moved key and value being built the same way. -/
inductive reachable (tables : Nat → Option VAL_OPS) : VAL → Prop
  | fresh : reachable tables VAL_new
  | set_type (vp vp1 : VAL) (target : VAL_types) (r : OPS_RESULT) :
      reachable tables vp → VAL_default_set_type vp target = .ok (r, vp1) →
      reachable tables vp1
  | copy_from_int32 (vp vp1 : VAL) (n : Int) (r : OPS_RESULT) :
      reachable tables vp → VAL_default_copy_from_int32 vp n = .ok (r, vp1) →
      reachable tables vp1
  | copy_from_string (vp vp1 : VAL) (s : List Char) (r : OPS_RESULT) :
      reachable tables vp → VAL_default_copy_from_string vp s = .ok (r, vp1) →
      reachable tables vp1
  | move_from_key_val (vp key val : VAL) (out : MoveOutcome) :
      reachable tables vp → reachable tables key → reachable tables val →
      VAL_default_move_from_key_val tables vp key val = .ok out →
      reachable tables out.vp

/-- The payload agrees with the type as the operations keep it: Undefined holds the zero
payload of creation, Int32 that zero or an integer, String that zero (no buffer yet) or a
present buffer, Object a present container. -/
def type_agrees (v : VAL) : Prop :=
  match v.type_id with
  | VAL_types.VAL_UNDEFINED => v.type_data = VAL_type_data.zero
  | VAL_types.VAL_INT32 => v.type_data = VAL_type_data.zero ∨ ∃ n, v.type_data = VAL_type_data.int32 n
  | VAL_types.VAL_STRING =>
    v.type_data = VAL_type_data.zero ∨ ∃ s, v.type_data = VAL_type_data.string (some s)
  | VAL_types.VAL_OBJECT => ∃ o, v.type_data = VAL_type_data.object (some o)

/-- The digit string `ds` is the decimal numeral of `m`: decimal digits, at least one, no
leading zero except for the numeral `0`, with positional value `m`. -/
def decimal_digits (m : Nat) (ds : List Char) : Prop :=
  ds ≠ [] ∧ (∀ c ∈ ds, is_digit 10 c = true) ∧ (ds.head? = some '0' → ds = ['0']) ∧
    digits_value 10 ds = m

/-- The text `t` is the base-10 text of `n`: a `-` for a negative number, then the decimal
numeral of its magnitude, without padding. -/
def decimal_text (n : Int) (t : List Char) : Prop :=
  ∃ ds, t = (if n < 0 then ['-'] else []) ++ ds ∧ decimal_digits n.natAbs ds

/-- The integer the driver stores for the key argument `k`: the payload that
`copy_from_string` leaves in a fresh Int32 value, when it returns Ok. -/
def parse_key (k : List Char) : Option Int :=
  match VAL_default_copy_from_string { VAL_template with type_id := VAL_types.VAL_INT32 } k with
  | .ok (r, v) => if result_ok r = true then v.type_data.read_int32 else none
  | .error _ => none

/-- The arguments taken in consecutive pairs, each key parsed; a trailing unpaired argument
is ignored; `none` when some key does not parse. -/
def parsed_pairs : List (List Char) → Option (List (Int × List Char))
  | k :: v :: rest =>
    match parse_key k, parsed_pairs rest with
    | some n, some l => some ((n, v) :: l)
    | _, _ => none
  | _ => some []

/-- The distinct keys in order of first occurrence. -/
def first_keys : List Int → List Int
  | [] => []
  | k :: ks => k :: (first_keys ks).filter (fun x => decide (x ≠ k))

/-- The value of the last pair with key `k`. -/
def last_value (k : Int) : List (Int × List Char) → Option (List Char)
  | [] => none
  | p :: rest =>
    match last_value k rest with
    | some w => some w
    | none => if p.1 = k then some p.2 else none

/-- The pairs the output shows: the distinct keys in order of first occurrence, each with
the value of its last occurrence. -/
def expected_pairs (kvs : List (Int × List Char)) : List (Int × List Char) :=
  (first_keys (kvs.map Prod.fst)).map (fun k => (k, (last_value k kvs).getD []))

/-- The text of one pair: the decimal text of the key, `: `, the value between double
quotes. -/
def render_pair (p : Int × List Char) : List Char :=
  format_d p.1 ++ [':', ' '] ++ ['\x22'] ++ p.2 ++ ['\x22']

/-- The text of a container: the pairs joined by `, ` between braces. -/
def render_pairs (ps : List (Int × List Char)) : List Char :=
  ['\x7b'] ++ List.intercalate [',', ' '] (ps.map render_pair) ++ ['\x7d']

/-- One insertion into a list of pairs: the first pair with the same key is replaced in
place, a new key is appended. -/
def upsert : List (Int × List Char) → Int × List Char → List (Int × List Char)
  | [], p => [p]
  | q :: rest, p => if q.1 = p.1 then p :: rest else q :: upsert rest p

/-- The slots the driver builds for a list of pairs. -/
def slots (ps : List (Int × List Char)) : List (OBJECT_KV VAL) :=
  ps.map (fun p => { key := int_val p.1, val := string_val p.2 })

/-! ## Lemmas: comparison -/

open VAL_types OPS_RESULT_errors

theorem strcmp_eq_zero_iff (s t : List Char) : strcmp s t = 0 ↔ s = t := by
  induction s generalizing t with
  | nil => cases t <;> simp [strcmp]
  | cons a as ih =>
    cases t with
    | nil => simp [strcmp]
    | cons b bs =>
      by_cases h : a = b
      · simp [strcmp, h, ih]
      · by_cases h2 : a.toNat < b.toNat <;> simp [strcmp, h, h2]

theorem same_payload_symm {a b : VAL} (h : same_payload a b) : same_payload b a := by
  rcases h with ⟨h1, h2, x, hx, hy⟩ | ⟨h1, h2, s, hx, hy⟩
  · exact Or.inl ⟨h2, h1, x, hy, hx⟩
  · exact Or.inr ⟨h2, h1, s, hy, hx⟩

theorem same_payload_trans {a b c : VAL} (h : same_payload a b) (h2 : same_payload b c) :
    same_payload a c := by
  rcases h with ⟨ha, hb, x, hx, hy⟩ | ⟨ha, hb, s, hx, hy⟩ <;>
    rcases h2 with ⟨hb2, hc, y, hy2, hz⟩ | ⟨hb2, hc, t, hy2, hz⟩
  · rw [hy] at hy2
    cases hy2
    exact Or.inl ⟨ha, hc, x, hx, hz⟩
  · rw [hb] at hb2; cases hb2
  · rw [hb] at hb2; cases hb2
  · rw [hy] at hy2
    cases hy2
    exact Or.inr ⟨ha, hc, s, hx, hz⟩

theorem default_is_equal_ok_iff (a b : VAL) :
    (∃ r, VAL_default_is_equal a b = .ok r ∧ result_ok r = true) ↔ same_payload a b := by
  constructor
  · rintro ⟨r, hr, hok⟩
    unfold VAL_default_is_equal at hr
    split at hr
    · cases hr; simp [result_ok, OPS_RESULT.of] at hok
    · rename_i hty
      have hty2 : a.type_id = b.type_id := by simpa using hty
      split at hr
      · rename_i hta
        split at hr
        · rename_i x y hx hy
          split at hr
          · cases hr; simp [result_ok, OPS_RESULT.of] at hok
          · rename_i hxy
            have : x = y := by simpa using hxy
            subst this
            exact Or.inl ⟨hta, hty2 ▸ hta, x, hx, hy⟩
        · cases hr
      · rename_i hta
        split at hr
        · rename_i x y hx hy
          split at hr
          · cases hr; simp [result_ok, OPS_RESULT.of] at hok
          · rename_i hxy
            have h0 : strcmp x y = 0 := by simpa using hxy
            have : x = y := (strcmp_eq_zero_iff x y).1 h0
            subst this
            exact Or.inr ⟨hta, hty2 ▸ hta, x, hx, hy⟩
        · cases hr
      · cases hr; simp [result_ok, OPS_RESULT.of] at hok
  · rintro (⟨ha, hb, x, hx, hy⟩ | ⟨ha, hb, s, hx, hy⟩)
    · exact ⟨OPS_RESULT.of OPS_RESULT_OK, by simp [VAL_default_is_equal, ha, hb, hx, hy], rfl⟩
    · exact ⟨OPS_RESULT.of OPS_RESULT_OK,
        by simp [VAL_default_is_equal, ha, hb, hx, hy, (strcmp_eq_zero_iff s s).2 rfl], rfl⟩

theorem default_is_equal_total (a b : VAL) (ha : payload_ok a = true) (hb : payload_ok b = true) :
    ∃ r, VAL_default_is_equal a b = .ok r := by
  unfold VAL_default_is_equal
  split
  · exact ⟨_, rfl⟩
  · rename_i hty
    have hty2 : a.type_id = b.type_id := by simpa using hty
    split
    · rename_i hta
      have htb : b.type_id = VAL_INT32 := hty2 ▸ hta
      simp only [payload_ok, hta, htb] at ha hb
      obtain ⟨x, hx⟩ := Option.isSome_iff_exists.1 ha
      obtain ⟨y, hy⟩ := Option.isSome_iff_exists.1 hb
      rw [hx, hy]
      simp only
      split <;> exact ⟨_, rfl⟩
    · rename_i hta
      have htb : b.type_id = VAL_STRING := hty2 ▸ hta
      simp only [payload_ok, hta, htb] at ha hb
      split at ha
      · split at hb
        · rename_i s hs _ t ht
          rw [hs, ht]
          simp only
          split <;> exact ⟨_, rfl⟩
        · cases hb
      · cases ha
    · exact ⟨_, rfl⟩

theorem VAL_is_equal_template (tables : Nat → Option VAL_OPS) (a b : VAL)
    (ha : a.ops = OpsRef.template) (hb : b.ops = OpsRef.template) :
    VAL_is_equal tables a b =
      both_directions (VAL_default_is_equal a b) (VAL_default_is_equal b a) := by
  simp only [VAL_is_equal, ops_is_equal, ha, hb, both_directions]

theorem both_directions_ok (r1 r2 : OPS_RESULT) :
    both_directions (.ok r1) (.ok r2) =
      .ok (OPS_RESULT.of (if result_ok r1 = true ∧ result_ok r2 = true then OPS_RESULT_OK
        else OPS_RESULT_FALSE)) := by
  cases h1 : result_ok r1 <;> cases h2 : result_ok r2 <;> simp [both_directions, h1, h2]

theorem keys_equal_template_iff (tables : Nat → Option VAL_OPS) (a b : VAL)
    (ha : a.ops = OpsRef.template) (hb : b.ops = OpsRef.template) :
    keys_equal tables a b = true ↔ same_payload a b := by
  rw [keys_equal, VAL_is_equal_template tables a b ha hb]
  constructor
  · intro h
    cases h1 : VAL_default_is_equal a b with
    | error e => rw [h1] at h; simp [both_directions] at h
    | ok r1 =>
      rw [h1] at h
      cases hr1 : result_ok r1 with
      | true => exact (default_is_equal_ok_iff a b).1 ⟨r1, h1, hr1⟩
      | false =>
        simp only [both_directions, hr1, Bool.false_eq_true, if_false] at h
        cases h
  · intro h
    obtain ⟨r1, h1, hr1⟩ := (default_is_equal_ok_iff a b).2 h
    obtain ⟨r2, h2, hr2⟩ := (default_is_equal_ok_iff b a).2 (same_payload_symm h)
    rw [h1, h2, both_directions_ok]
    simp only [hr1, hr2, and_self, if_true]
    rfl

theorem keys_differ_of_default (tables : Nat → Option VAL_OPS) (a b : VAL)
    (ha : default_key_ok a = true) (hb : default_key_ok b = true) :
    keys_differ tables a b = !(keys_equal tables a b) := by
  simp only [default_key_ok, Bool.and_eq_true, decide_eq_true_eq] at ha hb
  rw [keys_equal, keys_differ, VAL_is_equal_template tables a b ha.1 hb.1]
  obtain ⟨r1, h1⟩ := default_is_equal_total a b ha.2 hb.2
  obtain ⟨r2, h2⟩ := default_is_equal_total b a hb.2 ha.2
  rw [h1, h2, both_directions_ok]

theorem keys_equal_false_of_differ {tables : Nat → Option VAL_OPS} {a b : VAL}
    (h : keys_differ tables a b = true) : keys_equal tables a b = false := by
  unfold keys_differ at h
  unfold keys_equal
  cases hr : VAL_is_equal tables a b with
  | error e => rfl
  | ok r =>
    rw [hr] at h
    simpa using h

theorem default_key_ok_ops {v : VAL} (h : default_key_ok v = true) : v.ops = OpsRef.template := by
  simp only [default_key_ok, Bool.and_eq_true, decide_eq_true_eq] at h
  exact h.1

/-! ## Lemmas: the search loop and the insertion -/

theorem find_existing_key_hit (tables : Nat → Option VAL_OPS) (key : VAL) (cap : Nat)
    (old : OBJECT_KV VAL) (post : List (OBJECT_KV VAL)) :
    ∀ (pre : List (OBJECT_KV VAL)) (i : Nat),
      (∀ kv ∈ pre, keys_differ tables kv.key key = true) →
      keys_equal tables old.key key = true → i + pre.length < cap →
      find_existing_key tables key cap (pre ++ old :: post) i
        = .ok (i + pre.length, [old.key, old.val]) := by
  intro pre
  induction pre with
  | nil =>
    intro i _ heq hcap
    simp only [List.length_nil, Nat.add_zero] at hcap
    simp only [keys_equal] at heq
    cases hr : VAL_is_equal tables old.key key with
    | error e => rw [hr] at heq; simp at heq
    | ok r =>
      rw [hr] at heq
      have hyes : result_ok r = true := by simpa using heq
      simp [find_existing_key, hcap, hr, hyes]
  | cons x pre ih =>
    intro i hpre heq hcap
    simp only [List.length_cons] at hcap
    have hx := hpre x (List.mem_cons_self _ _)
    simp only [keys_differ] at hx
    cases hr : VAL_is_equal tables x.key key with
    | error e => rw [hr] at hx; simp at hx
    | ok r =>
      rw [hr] at hx
      have hlt : i < cap := by omega
      have hno : result_ok r = false := by simpa using hx
      have := ih (i + 1) (fun kv hkv => hpre kv (List.mem_cons_of_mem _ hkv)) heq (by omega)
      have e : i + 1 + pre.length = i + (pre.length + 1) := by omega
      simp [find_existing_key, hlt, hr, hno, this, e]

theorem find_existing_key_miss (tables : Nat → Option VAL_OPS) (key : VAL) (cap : Nat) :
    ∀ (l : List (OBJECT_KV VAL)) (i : Nat),
      (∀ kv ∈ l, keys_differ tables kv.key key = true) → i + l.length ≤ cap →
      find_existing_key tables key cap l i = .ok (i + l.length, []) := by
  intro l
  induction l with
  | nil => intro i _ _; simp [find_existing_key]
  | cons x l ih =>
    intro i hl hcap
    simp only [List.length_cons] at hcap
    have hx := hl x (List.mem_cons_self _ _)
    simp only [keys_differ] at hx
    cases hr : VAL_is_equal tables x.key key with
    | error e => rw [hr] at hx; simp at hx
    | ok r =>
      rw [hr] at hx
      have hlt : i < cap := by omega
      have hno : result_ok r = false := by simpa using hx
      have := ih (i + 1) (fun kv hkv => hl kv (List.mem_cons_of_mem _ hkv)) (by omega)
      have e : i + 1 + l.length = i + (l.length + 1) := by omega
      simp [find_existing_key, hlt, hr, hno, this, e]

theorem set_length_append {α : Type} (pre : List α) (old new : α) (post : List α) :
    (pre ++ old :: post).set pre.length new = pre ++ new :: post := by
  induction pre with
  | nil => rfl
  | cons x pre ih => simp [List.set, ih]

theorem first_equal_split (tables : Nat → Option VAL_OPS) (key : VAL)
    (hkey : default_key_ok key = true) :
    ∀ l : List (OBJECT_KV VAL), (∀ kv ∈ l, default_key_ok kv.key = true) →
      (∃ kv ∈ l, keys_equal tables kv.key key = true) →
      ∃ pre old post, l = pre ++ old :: post ∧
        (∀ kv ∈ pre, keys_differ tables kv.key key = true) ∧
        keys_equal tables old.key key = true := by
  intro l
  induction l with
  | nil => rintro _ ⟨kv, hkv, _⟩; cases hkv
  | cons x l ih =>
    intro hl hex
    cases hx : keys_equal tables x.key key with
    | true => exact ⟨[], x, l, rfl, by simp, hx⟩
    | false =>
      have hex2 : ∃ kv ∈ l, keys_equal tables kv.key key = true := by
        obtain ⟨kv, hkv, he⟩ := hex
        rcases List.mem_cons.1 hkv with rfl | hmem
        · rw [hx] at he; cases he
        · exact ⟨kv, hmem, he⟩
      obtain ⟨pre, old, post, hsplit, hpre, hold⟩ :=
        ih (fun kv hkv => hl kv (List.mem_cons_of_mem _ hkv)) hex2
      refine ⟨x :: pre, old, post, by rw [hsplit]; rfl, ?_, hold⟩
      intro kv hkv
      rcases List.mem_cons.1 hkv with rfl | hmem
      · rw [keys_differ_of_default tables _ key (hl _ (List.mem_cons_self _ _)) hkey, hx]
        rfl
      · exact hpre kv hmem

/-- When some stored key is reported equal and every comparison before it returns a verdict,
the scan has a first slot reported equal, and every comparison before that slot returns
not equal.  Nothing is assumed about the operations tables or the payloads. -/
theorem first_verdict_split (tables : Nat → Option VAL_OPS) (key : VAL) :
    ∀ (pre0 : List (OBJECT_KV VAL)) (mid : OBJECT_KV VAL) (post0 : List (OBJECT_KV VAL)),
      keys_equal tables mid.key key = true →
      (∀ kv ∈ pre0, keys_equal tables kv.key key = true ∨ keys_differ tables kv.key key = true) →
      ∃ pre old post, pre0 ++ mid :: post0 = pre ++ old :: post ∧
        (∀ kv ∈ pre, keys_differ tables kv.key key = true) ∧
        keys_equal tables old.key key = true := by
  intro pre0
  induction pre0 with
  | nil => intro mid post0 hmid _; exact ⟨[], mid, post0, rfl, by simp, hmid⟩
  | cons x pre0 ih =>
    intro mid post0 hmid hret
    rcases hret x (List.mem_cons_self _ _) with hx | hx
    · exact ⟨[], x, pre0 ++ mid :: post0, rfl, by simp, hx⟩
    · obtain ⟨pre, old, post, hsplit, hpre, hold⟩ :=
        ih mid post0 hmid (fun kv hkv => hret kv (List.mem_cons_of_mem _ hkv))
      refine ⟨x :: pre, old, post, by rw [List.cons_append, hsplit]; rfl, ?_, hold⟩
      intro kv hkv
      rcases List.mem_cons.1 hkv with rfl | hmem
      · exact hx
      · exact hpre kv hmem

theorem find_existing_key_inv (tables : Nat → Option VAL_OPS) (key : VAL) (cap : Nat) :
    ∀ (l : List (OBJECT_KV VAL)) (i n : Nat) (del : List VAL),
      find_existing_key tables key cap l i = .ok (n, del) →
      (n = i + l.length ∧ del = [] ∧ ∀ kv ∈ l, keys_differ tables kv.key key = true) ∨
      (∃ pre old post, l = pre ++ old :: post ∧ n = i + pre.length ∧
        del = [old.key, old.val] ∧ (∀ kv ∈ pre, keys_differ tables kv.key key = true) ∧
        keys_equal tables old.key key = true) := by
  intro l
  induction l with
  | nil =>
    intro i n del h
    simp only [find_existing_key, Except.ok.injEq, Prod.mk.injEq] at h
    left
    exact ⟨by simp [h.1], h.2.symm, by simp⟩
  | cons x l ih =>
    intro i n del h
    unfold find_existing_key at h
    split at h
    · cases hr : VAL_is_equal tables x.key key with
      | error e => rw [hr] at h; cases h
      | ok r =>
        rw [hr] at h
        simp only at h
        cases hok : result_ok r with
        | true =>
          simp only [hok, if_true, Except.ok.injEq, Prod.mk.injEq] at h
          right
          exact ⟨[], x, l, rfl, by simp [h.1], h.2.symm, by simp, by simp [keys_equal, hr, hok]⟩
        | false =>
          simp only [hok, Bool.false_eq_true, if_false] at h
          have hxd : keys_differ tables x.key key = true := by simp [keys_differ, hr, hok]
          rcases ih (i + 1) n del h with ⟨hn, hd, hall⟩ | ⟨pre, old, post, hs, hn, hd, hpre, hold⟩
          · left
            refine ⟨by simp only [List.length_cons]; omega, hd, ?_⟩
            intro kv hkv
            rcases List.mem_cons.1 hkv with rfl | hmem
            · exact hxd
            · exact hall kv hmem
          · right
            refine ⟨x :: pre, old, post, by rw [hs]; rfl,
              by simp only [List.length_cons]; omega, hd, ?_, hold⟩
            intro kv hkv
            rcases List.mem_cons.1 hkv with rfl | hmem
            · exact hxd
            · exact hpre kv hmem
    · cases h

theorem move_hit (tables : Nat → Option VAL_OPS) (vp key val : VAL) (o : OBJECT VAL)
    (pre post : List (OBJECT_KV VAL)) (old : OBJECT_KV VAL)
    (hty : vp.type_id = VAL_OBJECT) (hdata : vp.type_data = VAL_type_data.object (some o))
    (hcap : o.len ≤ o.cap) (hsplit : o.array = pre ++ old :: post)
    (hpre : ∀ kv ∈ pre, keys_differ tables kv.key key = true)
    (hold : keys_equal tables old.key key = true) :
    VAL_default_move_from_key_val tables vp key val =
      .ok { result := OPS_RESULT.of OPS_RESULT_OK
            vp := { vp with
              type_data := VAL_type_data.object
                (some { array := pre ++ { key := key, val := val } :: post, cap := o.cap }) }
            deleted := [old.key, old.val] } := by
  have hlen : o.array.length = pre.length + (post.length + 1) := by
    rw [hsplit]; simp
  have hlt : 0 + pre.length < o.cap := by
    simp only [OBJECT.len] at hcap; omega
  have hfind := find_existing_key_hit tables key o.cap old post pre 0 hpre hold hlt
  rw [← hsplit] at hfind
  have hne : ¬ (0 + pre.length = o.len) := by
    simp only [OBJECT.len]; omega
  unfold VAL_default_move_from_key_val
  simp only [hty, ne_eq, not_true_eq_false, if_false, hdata, VAL_type_data.read_object, hfind, hne]
  rw [Nat.zero_add, hsplit, set_length_append]

theorem move_miss (tables : Nat → Option VAL_OPS) (vp key val : VAL) (o : OBJECT VAL)
    (hty : vp.type_id = VAL_OBJECT) (hdata : vp.type_data = VAL_type_data.object (some o))
    (hcap : o.len ≤ o.cap)
    (hne : ∀ kv ∈ o.array, keys_differ tables kv.key key = true) :
    VAL_default_move_from_key_val tables vp key val =
      .ok { result := OPS_RESULT.of OPS_RESULT_OK
            vp := { vp with
              type_data := VAL_type_data.object
                (some { array := o.array ++ [{ key := key, val := val }]
                        cap := if o.len = o.cap then (if o.cap = 0 then 4 else 2 * o.cap)
                               else o.cap }) }
            deleted := [] } := by
  have hfind := find_existing_key_miss tables key o.cap o.array 0 hne
    (by simp only [OBJECT.len] at hcap; omega)
  rw [Nat.zero_add] at hfind
  unfold VAL_default_move_from_key_val
  simp only [hty, ne_eq, not_true_eq_false, if_false, hdata, VAL_type_data.read_object, hfind,
    OBJECT.len, if_true]
  simp only [OBJECT.len] at hcap
  by_cases hfull : o.array.length = o.cap
  · by_cases hz : o.cap = 0
    · have : ¬ (o.cap > 0) := by omega
      have h4 : o.array.length < 4 := by omega
      simp [hfull, hz, this]
    · have hpos : o.cap > 0 := by omega
      have h2 : o.cap < o.cap * 2 := by omega
      simp [hfull, hz, hpos, h2, Nat.mul_comm]
  · have hlt : o.array.length < o.cap := by omega
    simp [hfull, hlt]

theorem move_inv (tables : Nat → Option VAL_OPS) (vp key val : VAL) (o : OBJECT VAL)
    (out : MoveOutcome)
    (hty : vp.type_id = VAL_OBJECT) (hdata : vp.type_data = VAL_type_data.object (some o))
    (h : VAL_default_move_from_key_val tables vp key val = .ok out) :
    (∃ cap, out.vp.type_data = VAL_type_data.object
          (some { array := o.array ++ [{ key := key, val := val }], cap := cap }) ∧
        ∀ kv ∈ o.array, keys_differ tables kv.key key = true) ∨
    (∃ pre old post, o.array = pre ++ old :: post ∧
        out.vp.type_data = VAL_type_data.object
          (some { array := pre ++ { key := key, val := val } :: post, cap := o.cap }) ∧
        (∀ kv ∈ pre, keys_differ tables kv.key key = true) ∧
        keys_equal tables old.key key = true) := by
  unfold VAL_default_move_from_key_val at h
  simp only [hty, ne_eq, not_true_eq_false, if_false, hdata, VAL_type_data.read_object] at h
  cases hf : find_existing_key tables key o.cap o.array 0 with
  | error e => rw [hf] at h; cases h
  | ok p =>
    obtain ⟨n, del⟩ := p
    rw [hf] at h
    simp only at h
    rcases find_existing_key_inv tables key o.cap o.array 0 n del hf with
      ⟨hn, _, hall⟩ | ⟨pre, old, post, hs, hn, _, hpre, hold⟩
    · left
      have hn2 : n = o.len := by simp [hn, OBJECT.len]
      simp only [hn2, if_true] at h
      split_ifs at h <;> (cases h; exact ⟨_, rfl, hall⟩)
    · right
      have hn2 : ¬ (n = o.len) := by
        simp only [OBJECT.len, hs, List.length_append, List.length_cons]; omega
      simp only [hn2, if_false] at h
      cases h
      refine ⟨pre, old, post, hs, ?_, hpre, hold⟩
      simp only
      rw [hn, Nat.zero_add, hs, set_length_append]

theorem unique_keys_append (tables : Nat → Option VAL_OPS) (l : List (OBJECT_KV VAL))
    (key val : VAL) (hu : unique_keys tables l)
    (hne : ∀ kv ∈ l, keys_differ tables kv.key key = true) :
    unique_keys tables (l ++ [{ key := key, val := val }]) := by
  unfold unique_keys at *
  rw [List.pairwise_append]
  refine ⟨hu, List.pairwise_singleton _ _, ?_⟩
  intro a ha b hb
  rw [List.mem_singleton] at hb
  subst hb
  exact keys_equal_false_of_differ (hne a ha)

theorem unique_keys_replace (tables : Nat → Option VAL_OPS)
    (pre post : List (OBJECT_KV VAL)) (old : OBJECT_KV VAL) (key val : VAL)
    (hu : unique_keys tables (pre ++ old :: post))
    (hops : ∀ kv ∈ pre ++ old :: post, kv.key.ops = OpsRef.template)
    (hkey : key.ops = OpsRef.template)
    (hpre : ∀ kv ∈ pre, keys_differ tables kv.key key = true)
    (hold : keys_equal tables old.key key = true) :
    unique_keys tables (pre ++ { key := key, val := val } :: post) := by
  unfold unique_keys at *
  rw [List.pairwise_append] at hu ⊢
  obtain ⟨h1, h2, h3⟩ := hu
  rw [List.pairwise_cons] at h2 ⊢
  have hoo : old.key.ops = OpsRef.template := hops old (by simp)
  refine ⟨h1, ⟨?_, h2.2⟩, ?_⟩
  · intro b hb
    have hbo : b.key.ops = OpsRef.template := hops b (by simp [hb])
    have hob := h2.1 b hb
    cases hkb : keys_equal tables key b.key with
    | false => rfl
    | true =>
      have s1 := (keys_equal_template_iff tables old.key key hoo hkey).1 hold
      have s2 := (keys_equal_template_iff tables key b.key hkey hbo).1 hkb
      have s3 := (keys_equal_template_iff tables old.key b.key hoo hbo).2 (same_payload_trans s1 s2)
      rw [s3] at hob
      cases hob
  · intro a ha b hb
    rcases List.mem_cons.1 hb with rfl | hmem
    · exact keys_equal_false_of_differ (hpre a ha)
    · exact h3 a ha b (List.mem_cons_of_mem _ hmem)

theorem move_step (tables : Nat → Option VAL_OPS) (vp key val : VAL)
    (hinv : container_ok tables vp) (hkey : default_key_ok key = true) :
    ∃ out, VAL_default_move_from_key_val tables vp key val = .ok out ∧
      container_ok tables out.vp := by
  obtain ⟨hty, o, hdata, hcap, hkeys, hu⟩ := hinv
  by_cases hex : ∃ kv ∈ o.array, keys_equal tables kv.key key = true
  · obtain ⟨pre, old, post, hs, hpre, hold⟩ := first_equal_split tables key hkey o.array hkeys hex
    refine ⟨_, move_hit tables vp key val o pre post old hty hdata hcap hs hpre hold, hty, _, rfl,
      ?_, ?_, ?_⟩
    · simp only [OBJECT.len, hs, List.length_append, List.length_cons] at hcap ⊢
      exact hcap
    · intro kv hkv
      simp only [List.mem_append, List.mem_cons] at hkv
      rcases hkv with h | rfl | h
      · exact hkeys kv (by rw [hs]; simp [h])
      · exact hkey
      · exact hkeys kv (by rw [hs]; simp [h])
    · rw [hs] at hu hkeys
      exact unique_keys_replace tables pre post old key val hu
        (fun kv hkv => default_key_ok_ops (hkeys kv hkv)) (default_key_ok_ops hkey) hpre hold
  · have hne : ∀ kv ∈ o.array, keys_differ tables kv.key key = true := by
      intro kv hkv
      rw [keys_differ_of_default tables kv.key key (hkeys kv hkv) hkey]
      cases h : keys_equal tables kv.key key with
      | false => rfl
      | true => exact absurd ⟨kv, hkv, h⟩ hex
    refine ⟨_, move_miss tables vp key val o hty hdata hcap hne, hty, _, rfl, ?_, ?_, ?_⟩
    · simp only [OBJECT.len, List.length_append, List.length_singleton] at hcap ⊢
      split
      · split <;> omega
      · omega
    · intro kv hkv
      simp only [List.mem_append, List.mem_singleton] at hkv
      rcases hkv with h | rfl
      · exact hkeys kv h
      · exact hkey
    · exact unique_keys_append tables o.array key val hu hne

theorem insert_all_ok (tables : Nat → Option VAL_OPS) :
    ∀ (pairs : List (VAL × VAL)) (vp : VAL), container_ok tables vp →
      (∀ p ∈ pairs, default_key_ok p.1 = true) →
      ∃ vp1, insert_all tables vp pairs = .ok vp1 ∧ container_ok tables vp1 := by
  intro pairs
  induction pairs with
  | nil => intro vp hinv _; exact ⟨vp, rfl, hinv⟩
  | cons p rest ih =>
    intro vp hinv hp
    obtain ⟨out, hout, hinv2⟩ := move_step tables vp p.1 p.2 hinv (hp p (List.mem_cons_self _ _))
    obtain ⟨vp1, h1, h2⟩ := ih out.vp hinv2 (fun q hq => hp q (List.mem_cons_of_mem _ hq))
    exact ⟨vp1, by simp only [insert_all, hout, h1], h2⟩

/-! ## Lemmas: parsing an integer -/

theorem digits_value_cons (base : Nat) (c : Char) (ds : List Char) :
    digits_value base (c :: ds) =
      (digit_value c).getD 0 * base ^ ds.length + digits_value base ds := by
  simp only [digits_value, List.reverse_cons, List.map_append, List.map_cons, List.map_nil,
    Nat.ofDigits_append, Nat.ofDigits_singleton, List.length_map, List.length_reverse]
  ring

theorem digits_value_nil (base : Nat) : digits_value base [] = 0 := by
  simp [digits_value]

theorem is_digit_iff {base : Nat} {c : Char} :
    is_digit base c = true ↔ ∃ d, digit_value c = some d ∧ d < base := by
  unfold is_digit
  cases h : digit_value c with
  | none => simp
  | some d => simp

theorem is_digit_false_iff {base : Nat} {c : Char} :
    is_digit base c = false ↔ ∀ d, digit_value c = some d → ¬ d < base := by
  unfold is_digit
  cases h : digit_value c with
  | none => simp
  | some d => simp

theorem scan_digits_append (base : Nat) :
    ∀ (ds rest : List Char) (acc : Nat), (∀ c ∈ ds, is_digit base c = true) →
      (∀ c t, rest = c :: t → is_digit base c = false) →
      scan_digits base (ds ++ rest) acc =
        (acc * base ^ ds.length + digits_value base ds, rest) := by
  intro ds
  induction ds with
  | nil =>
    intro rest acc _ hrest
    cases rest with
    | nil => simp [scan_digits, digits_value_nil]
    | cons c t =>
      have hc := is_digit_false_iff.1 (hrest c t rfl)
      simp only [List.nil_append, scan_digits, List.length_nil, pow_zero, mul_one,
        digits_value_nil, add_zero]
      cases hd : digit_value c with
      | none => rfl
      | some d => simp [hc d hd]
  | cons c ds ih =>
    intro rest acc hds hrest
    obtain ⟨d, hd, hlt⟩ := is_digit_iff.1 (hds c (List.mem_cons_self _ _))
    have := ih rest (acc * base + d) (fun x hx => hds x (List.mem_cons_of_mem _ hx)) hrest
    have e : (acc * base + d) * base ^ ds.length + digits_value base ds =
        acc * base ^ (ds.length + 1) + (d * base ^ ds.length + digits_value base ds) := by
      ring
    rw [List.cons_append, scan_digits]
    simp only [hd, hlt, if_true]
    rw [this, digits_value_cons, hd, Option.getD_some, List.length_cons, e]

theorem digit_value_of_isspace {c : Char} (h : isspace c = true) : digit_value c = none := by
  simp only [isspace, Bool.or_eq_true, decide_eq_true_eq] at h
  rcases h with ((((rfl | rfl) | rfl) | rfl) | rfl) | rfl <;> decide

theorem not_isspace_of_is_digit {base : Nat} {c : Char} (h : is_digit base c = true) :
    isspace c = false := by
  obtain ⟨d, hd, _⟩ := is_digit_iff.1 h
  cases hs : isspace c with
  | false => rfl
  | true => rw [digit_value_of_isspace hs] at hd; cases hd

theorem dropWhile_isspace_append (ws rest : List Char) (hws : ∀ c ∈ ws, isspace c = true)
    (hrest : ∀ c t, rest = c :: t → isspace c = false) :
    (ws ++ rest).dropWhile isspace = rest := by
  induction ws with
  | nil =>
    cases rest with
    | nil => rfl
    | cons c t => simp [List.dropWhile, hrest c t rfl]
  | cons w ws ih =>
    simp only [List.cons_append, List.dropWhile, hws w (List.mem_cons_self _ _)]
    exact ih (fun c hc => hws c (List.mem_cons_of_mem _ hc))

theorem literal_ends_head {base : Nat} {lit trail : List Char}
    (h : literal_ends base lit trail = true) :
    ∀ c t, trail = c :: t → is_digit base c = false := by
  intro c t ht
  subst ht
  simp only [literal_ends, Bool.and_eq_true, Bool.not_eq_true'] at h
  exact h.1

theorem not_x_of_is_digit_8 {x : Char} (h : is_digit 8 x = true) : ¬ (x = 'x' ∨ x = 'X') := by
  rintro (rfl | rfl) <;> revert h <;> decide

theorem scan_base_octal (ds trail : List Char) (hds : ∀ c ∈ ds, is_digit 8 c = true)
    (hend : literal_ends 8 ('0' :: ds) trail = true) :
    scan_base ('0' :: ds ++ trail) = (8, '0' :: ds ++ trail) := by
  simp only [List.cons_append, scan_base, if_true]
  cases ds with
  | nil =>
    simp only [List.nil_append]
    cases trail with
    | nil => rfl
    | cons x t =>
      cases t with
      | nil => rfl
      | cons h t2 =>
        simp only [literal_ends, Bool.and_eq_true, Bool.not_eq_true', decide_True,
          Bool.true_and, Bool.and_eq_false_imp, Bool.or_eq_true, decide_eq_true_eq] at hend
        have hno : ¬ ((x = 'x' ∨ x = 'X') ∧ is_digit 16 h = true) := by
          rintro ⟨hx, hh⟩
          have := hend.2 hx
          rw [this] at hh
          cases hh
        simp only [hno, if_false]
  | cons x ds2 =>
    have hx := not_x_of_is_digit_8 (hds x (List.mem_cons_self _ _))
    simp only [List.cons_append]
    cases hrest : ds2 ++ trail with
    | nil => rfl
    | cons h t2 =>
      have hno : ¬ ((x = 'x' ∨ x = 'X') ∧ is_digit 16 h = true) := fun hc => hx hc.1
      simp only [hno, if_false]

theorem literal_scan {lit trail : List Char} {base mag : Nat}
    (hlit : int_literal lit base mag) (hend : literal_ends base lit trail = true) :
    ∃ dp : List Char, dp ≠ [] ∧ scan_base (lit ++ trail) = (base, dp ++ trail) ∧
      scan_digits base (dp ++ trail) 0 = (mag, trail) ∧
      ∃ c0 rest0, lit = c0 :: rest0 ∧ is_digit 10 c0 = true := by
  have hhead := literal_ends_head hend
  cases hlit with
  | decimal d ds hd hd0 hds =>
    refine ⟨d :: ds, by simp, ?_, ?_, d, ds, rfl, hd⟩
    · simp [scan_base, hd0]
    · have hall : ∀ c ∈ d :: ds, is_digit 10 c = true := by
        intro c hc
        rcases List.mem_cons.1 hc with rfl | h
        · exact hd
        · exact hds c h
      rw [scan_digits_append 10 (d :: ds) trail 0 hall hhead]
      simp
  | octal ds hds =>
    refine ⟨'0' :: ds, by simp, scan_base_octal ds trail hds hend, ?_, '0', ds, rfl, by decide⟩
    have hall : ∀ c ∈ '0' :: ds, is_digit 8 c = true := by
      intro c hc
      rcases List.mem_cons.1 hc with rfl | h
      · decide
      · exact hds c h
    rw [scan_digits_append 8 ('0' :: ds) trail 0 hall hhead]
    simp
  | hex x d ds hx hds =>
    refine ⟨d :: ds, by simp, ?_, ?_, '0', x :: d :: ds, rfl, by decide⟩
    · have hd : is_digit 16 d = true := hds d (List.mem_cons_self _ _)
      simp [scan_base, hx, hd]
    · rw [scan_digits_append 16 (d :: ds) trail 0 hds hhead]
      simp

theorem scan_sign_literal (sgn : Option Bool) (c0 : Char) (rest : List Char)
    (h0 : is_digit 10 c0 = true) :
    scan_sign (sign_chars sgn ++ c0 :: rest) = (decide (sgn = some true), c0 :: rest) := by
  have hm : c0 ≠ '-' := by rintro rfl; revert h0; decide
  have hp : c0 ≠ '+' := by rintro rfl; revert h0; decide
  cases sgn with
  | none => simp [sign_chars, scan_sign, hm, hp]
  | some b => cases b <;> simp [sign_chars, scan_sign]

theorem strtol_literal (ws : List Char) (sgn : Option Bool) (lit trail : List Char)
    (base mag : Nat) (hws : ∀ c ∈ ws, isspace c = true) (hlit : int_literal lit base mag)
    (hend : literal_ends base lit trail = true) :
    strtol (ws ++ sign_chars sgn ++ lit ++ trail) =
      strtol_clamp (decide (sgn = some true)) mag trail := by
  obtain ⟨dp, hdp, hbase, hscan, c0, rest0, hl, h0⟩ := literal_scan hlit hend
  have hdrop : (ws ++ sign_chars sgn ++ lit ++ trail).dropWhile isspace
      = sign_chars sgn ++ (lit ++ trail) := by
    rw [List.append_assoc, List.append_assoc]
    apply dropWhile_isspace_append ws _ hws
    intro c t hct
    cases sgn with
    | none =>
      simp only [sign_chars, List.nil_append, hl, List.cons_append, List.cons.injEq] at hct
      rw [← hct.1]
      exact not_isspace_of_is_digit h0
    | some b =>
      cases b <;>
        simp only [sign_chars, List.cons_append, List.nil_append, List.cons.injEq] at hct <;>
        rw [← hct.1] <;> decide
  have hsign : scan_sign (sign_chars sgn ++ (lit ++ trail))
      = (decide (sgn = some true), lit ++ trail) := by
    rw [hl, List.cons_append]
    exact scan_sign_literal sgn c0 (rest0 ++ trail) h0
  have hlen : ¬ (trail.length = (dp ++ trail).length) := by
    have : 0 < dp.length := List.length_pos.2 hdp
    simp only [List.length_append]
    omega
  unfold strtol
  simp only [hdrop, hsign, hbase, hscan, hlen, if_false, strtol_clamp]

theorem copy_from_string_literal (vp : VAL) (ws : List Char) (sgn : Option Bool)
    (lit trail : List Char) (base mag : Nat) (hty : vp.type_id = VAL_INT32)
    (hws : ∀ c ∈ ws, isspace c = true) (hlit : int_literal lit base mag)
    (hend : literal_ends base lit trail = true) :
    VAL_default_copy_from_string vp (ws ++ sign_chars sgn ++ lit ++ trail) =
      if at_end_or_space trail = true ∧ INT_MIN ≤ signed_value sgn mag ∧
          signed_value sgn mag ≤ INT_MAX then
        .ok (OPS_RESULT.of OPS_RESULT_OK,
          { vp with type_data := VAL_type_data.int32 (signed_value sgn mag) })
      else .ok (OPS_RESULT.of OPS_RESULT_INVALID_INTEGER, vp) := by
  unfold VAL_default_copy_from_string
  simp only [hty, strtol_literal ws sgn lit trail base mag hws hlit hend]
  unfold strtol_clamp signed_value
  simp only [INT_MAX, INT_MIN, LONG_MAX, LONG_MIN]
  by_cases hs : sgn = some true
  · simp only [hs, decide_True, if_true]
    by_cases hov : (mag : Int) > - -9223372036854775808
    · simp only [hov, if_true, true_or]
      rw [if_neg]
      omega
    · simp only [hov, if_false, Bool.false_eq_true, false_or]
      by_cases he : at_end_or_space trail = true
      · simp only [he, not_true_eq_false, false_or, true_and]
        split_ifs <;> first | rfl | omega
      · simp [he]
  · simp only [hs, decide_False, if_false, Bool.false_eq_true]
    by_cases hov : (mag : Int) > 9223372036854775807
    · simp only [hov, if_true, true_or]
      rw [if_neg]
      omega
    · simp only [hov, if_false, Bool.false_eq_true, false_or]
      by_cases he : at_end_or_space trail = true
      · simp only [he, not_true_eq_false, false_or, true_and]
        split_ifs <;> first | rfl | omega
      · simp [he]

theorem literal_ends_of_spaces (base : Nat) (lit trail : List Char)
    (htrail : ∀ c ∈ trail, isspace c = true) : literal_ends base lit trail = true := by
  cases trail with
  | nil => rfl
  | cons c t =>
    have hc := htrail c (List.mem_cons_self _ _)
    have hd : is_digit base c = false := by
      simp [is_digit, digit_value_of_isspace hc]
    have hx1 : c ≠ 'x' := by rintro rfl; revert hc; decide
    have hx2 : c ≠ 'X' := by rintro rfl; revert hc; decide
    simp [literal_ends, hd, hx1, hx2]

theorem at_end_or_space_of_spaces (trail : List Char)
    (htrail : ∀ c ∈ trail, isspace c = true) : at_end_or_space trail = true := by
  cases trail with
  | nil => rfl
  | cons c t => exact htrail c (List.mem_cons_self _ _)

/-! ## Lemmas: the type of a value -/

theorem set_type_keeps_or_sets (vp vp1 : VAL) (target : VAL_types) (r : OPS_RESULT)
    (h : VAL_default_set_type vp target = .ok (r, vp1)) :
    vp1.type_id = vp.type_id ∨ (vp.type_id = VAL_UNDEFINED ∧ vp1.type_id = target) := by
  unfold VAL_default_set_type at h
  split at h
  · simp only [Except.ok.injEq, Prod.mk.injEq] at h
    left; rw [← h.2]
  · rename_i hc
    have hc2 : vp.type_id = VAL_UNDEFINED ∨ vp.type_id = target := by
      by_cases h0 : vp.type_id = VAL_UNDEFINED
      · exact Or.inl h0
      · right
        by_contra h1
        exact hc ⟨h0, h1⟩
    split at h <;> simp only [Except.ok.injEq, Prod.mk.injEq] at h <;>
      · rcases hc2 with h0 | h0
        · right; exact ⟨h0, by rw [← h.2]⟩
        · left; rw [← h.2]; exact h0.symm

theorem copy_from_string_keeps_type (vp vp1 : VAL) (s : List Char) (r : OPS_RESULT)
    (h : VAL_default_copy_from_string vp s = .ok (r, vp1)) : vp1.type_id = vp.type_id := by
  unfold VAL_default_copy_from_string at h
  split at h
  · simp only at h
    split_ifs at h <;> simp only [Except.ok.injEq, Prod.mk.injEq] at h <;> rw [← h.2]
  · split at h
    · cases h
    · split at h
      · simp only [Except.ok.injEq, Prod.mk.injEq] at h
        rw [← h.2]
      · cases h
  · simp only [Except.ok.injEq, Prod.mk.injEq] at h
    rw [← h.2]

theorem copy_from_int32_keeps_type (vp vp1 : VAL) (n : Int) (r : OPS_RESULT)
    (h : VAL_default_copy_from_int32 vp n = .ok (r, vp1)) : vp1.type_id = vp.type_id := by
  unfold VAL_default_copy_from_int32 at h
  split at h
  · simp only [Except.ok.injEq, Prod.mk.injEq] at h
    rw [← h.2]
  · split at h
    · cases h
    · split at h
      · cases h
      · simp only [Except.ok.injEq, Prod.mk.injEq] at h
        rw [← h.2]
  · simp only [Except.ok.injEq, Prod.mk.injEq] at h
    rw [← h.2]

theorem move_from_key_val_keeps_type (tables : Nat → Option VAL_OPS) (vp key val : VAL)
    (out : MoveOutcome) (h : VAL_default_move_from_key_val tables vp key val = .ok out) :
    out.vp.type_id = vp.type_id := by
  unfold VAL_default_move_from_key_val at h
  split at h
  · cases h; rfl
  · split at h
    · split at h
      · cases h
      · simp only at h
        split_ifs at h <;> (cases h; rfl)
    · cases h

/-! ## Lemmas: runs of insertions -/

theorem insert_all_unique (tables : Nat → Option VAL_OPS) :
    ∀ (pairs : List (VAL × VAL)) (vp vp1 : VAL) (o : OBJECT VAL),
      vp.type_id = VAL_OBJECT → vp.type_data = VAL_type_data.object (some o) →
      (∀ kv ∈ o.array, kv.key.ops = OpsRef.template) → unique_keys tables o.array →
      (∀ p ∈ pairs, p.1.ops = OpsRef.template) →
      insert_all tables vp pairs = .ok vp1 →
      ∃ o1 : OBJECT VAL, vp1.type_data = VAL_type_data.object (some o1) ∧
        unique_keys tables o1.array := by
  intro pairs
  induction pairs with
  | nil =>
    intro vp vp1 o _ hdata _ hu _ h
    simp only [insert_all, Except.ok.injEq] at h
    subst h
    exact ⟨o, hdata, hu⟩
  | cons p rest ih =>
    intro vp vp1 o hty hdata hops hu hp h
    have hkey : p.1.ops = OpsRef.template := hp p (List.mem_cons_self _ _)
    simp only [insert_all] at h
    cases hm : VAL_default_move_from_key_val tables vp p.1 p.2 with
    | error e => rw [hm] at h; cases h
    | ok out =>
      rw [hm] at h
      simp only at h
      have hty2 : out.vp.type_id = VAL_OBJECT :=
        (move_from_key_val_keeps_type tables vp p.1 p.2 out hm).trans hty
      have hrest : ∀ q ∈ rest, q.1.ops = OpsRef.template :=
        fun q hq => hp q (List.mem_cons_of_mem _ hq)
      rcases move_inv tables vp p.1 p.2 o out hty hdata hm with
        ⟨cap, hd, hall⟩ | ⟨pre, old, post, hs, hd, hpre, hold⟩
      · refine ih out.vp vp1 _ hty2 hd ?_ (unique_keys_append tables o.array p.1 p.2 hu hall)
          hrest h
        intro kv hkv
        simp only [List.mem_append, List.mem_singleton] at hkv
        rcases hkv with hk | rfl
        · exact hops kv hk
        · exact hkey
      · rw [hs] at hu hops
        refine ih out.vp vp1 _ hty2 hd ?_
          (unique_keys_replace tables pre post old p.1 p.2 hu hops hkey hpre hold) hrest h
        intro kv hkv
        simp only [List.mem_append, List.mem_cons] at hkv
        rcases hkv with hk | rfl | hk
        · exact hops kv (by simp [hk])
        · exact hkey
        · exact hops kv (by simp [hk])

/-! ## Lemmas: dispatch -/

theorem ops_is_equal_eq_table (tables : Nat → Option VAL_OPS) (r : OpsRef) :
    ops_is_equal tables r = (ops_table tables r).map (fun t => t.is_equal) := by
  cases r <;> rfl

/-! ## Lemmas: bounds of the container -/

theorem read_object_some {d : VAL_type_data VAL} {o : OBJECT VAL}
    (h : d.read_object = some (some o)) : d = VAL_type_data.object (some o) := by
  cases d with
  | zero => cases h
  | int32 n => cases h
  | string p => cases h
  | object p =>
    simp only [VAL_type_data.read_object, Option.some.injEq] at h
    rw [h]

theorem cap_form_grow {cap : Nat} (h : cap_form cap) :
    cap_form (if cap > 0 then cap * 2 else 4) := by
  rcases h with h0 | ⟨k, hk⟩
  · right
    exact ⟨0, by simp [h0]⟩
  · right
    refine ⟨k + 1, ?_⟩
    have hpos : cap > 0 := by
      rw [hk]; positivity
    rw [if_pos hpos, hk, pow_succ]
    ring

theorem move_keeps_bounds (tables : Nat → Option VAL_OPS) (vp key val : VAL) (o : OBJECT VAL)
    (out : MoveOutcome)
    (hty : vp.type_id = VAL_OBJECT) (hdata : vp.type_data = VAL_type_data.object (some o))
    (hb : bounds_ok o)
    (h : VAL_default_move_from_key_val tables vp key val = .ok out) :
    ∃ o1 : OBJECT VAL, out.vp.type_data = VAL_type_data.object (some o1) ∧ bounds_ok o1 := by
  unfold VAL_default_move_from_key_val at h
  simp only [hty, ne_eq, not_true_eq_false, if_false, hdata, VAL_type_data.read_object] at h
  cases hf : find_existing_key tables key o.cap o.array 0 with
  | error e => rw [hf] at h; cases h
  | ok p =>
    obtain ⟨n, del⟩ := p
    rw [hf] at h
    simp only at h
    rcases find_existing_key_inv tables key o.cap o.array 0 n del hf with
      ⟨hn, _, _⟩ | ⟨pre, old, post, hs, hn, _, _, _⟩
    · have hn2 : n = o.len := by simp [hn, OBJECT.len]
      simp only [hn2, if_true] at h
      by_cases hfull : o.len = o.cap
      · have hg := cap_form_grow hb.2
        simp only [hfull, if_true] at h
        by_cases hz : o.cap > 0
        · simp only [hz, if_true] at h hg
          split_ifs at h with hlt
          cases h
          refine ⟨_, rfl, ?_, hg⟩
          simp only [OBJECT.len, List.length_append, List.length_singleton]
          simp only [OBJECT.len] at hfull
          omega
        · simp only [hz, if_false] at h hg
          split_ifs at h with hlt
          cases h
          refine ⟨_, rfl, ?_, hg⟩
          simp only [OBJECT.len, List.length_append, List.length_singleton]
          simp only [OBJECT.len] at hfull
          omega
      · simp only [hfull, if_false] at h
        split_ifs at h with hlt
        cases h
        refine ⟨_, rfl, ?_, hb.2⟩
        simp only [OBJECT.len, List.length_append, List.length_singleton]
        simp only [OBJECT.len] at hlt
        omega
    · have hn2 : ¬ (n = o.len) := by
        simp only [OBJECT.len, hs, List.length_append, List.length_cons]; omega
      simp only [hn2, if_false] at h
      cases h
      refine ⟨_, rfl, ?_, hb.2⟩
      simp only [OBJECT.len, List.length_set]
      exact hb.1

theorem insert_all_keeps_bounds (tables : Nat → Option VAL_OPS) :
    ∀ (pairs : List (VAL × VAL)) (vp vp1 : VAL) (o : OBJECT VAL),
      vp.type_id = VAL_OBJECT → vp.type_data = VAL_type_data.object (some o) → bounds_ok o →
      insert_all tables vp pairs = .ok vp1 →
      vp1.type_id = VAL_OBJECT ∧
        ∃ o1 : OBJECT VAL, vp1.type_data = VAL_type_data.object (some o1) ∧ bounds_ok o1 := by
  intro pairs
  induction pairs with
  | nil =>
    intro vp vp1 o hty hdata hb h
    simp only [insert_all, Except.ok.injEq] at h
    subst h
    exact ⟨hty, o, hdata, hb⟩
  | cons p rest ih =>
    intro vp vp1 o hty hdata hb h
    simp only [insert_all] at h
    cases hm : VAL_default_move_from_key_val tables vp p.1 p.2 with
    | error e => rw [hm] at h; cases h
    | ok out =>
      rw [hm] at h
      simp only at h
      obtain ⟨o1, hd1, hb1⟩ := move_keeps_bounds tables vp p.1 p.2 o out hty hdata hb hm
      exact ih out.vp vp1 o1
        ((move_from_key_val_keeps_type tables vp p.1 p.2 out hm).trans hty) hd1 hb1 h

theorem find_existing_key_total (tables : Nat → Option VAL_OPS) (key : VAL) (cap : Nat) :
    ∀ (l : List (OBJECT_KV VAL)) (i : Nat), i + l.length ≤ cap →
      (∀ kv ∈ l, ∃ r, VAL_is_equal tables kv.key key = .ok r) →
      ∃ n del, find_existing_key tables key cap l i = .ok (n, del) ∧ n ≤ i + l.length := by
  intro l
  induction l with
  | nil => intro i _ _; exact ⟨i, [], rfl, by simp⟩
  | cons x l ih =>
    intro i hcap hall
    simp only [List.length_cons] at hcap
    obtain ⟨r, hr⟩ := hall x (List.mem_cons_self _ _)
    have hlt : i < cap := by omega
    unfold find_existing_key
    simp only [hlt, if_true, hr]
    cases hok : result_ok r with
    | true => exact ⟨i, [x.key, x.val], by simp, by simp⟩
    | false =>
      obtain ⟨n, del, hf, hn⟩ :=
        ih (i + 1) (by omega) (fun kv hkv => hall kv (List.mem_cons_of_mem _ hkv))
      refine ⟨n, del, by simpa using hf, ?_⟩
      simp only [List.length_cons]
      omega

theorem move_returns_in_bounds (tables : Nat → Option VAL_OPS) (vp key val : VAL)
    (o : OBJECT VAL) (hty : vp.type_id = VAL_OBJECT)
    (hdata : vp.type_data = VAL_type_data.object (some o)) (hb : o.len ≤ o.cap)
    (hall : ∀ kv ∈ o.array, ∃ r, VAL_is_equal tables kv.key key = .ok r) :
    ∃ out, VAL_default_move_from_key_val tables vp key val = .ok out := by
  obtain ⟨n, del, hf, hn⟩ := find_existing_key_total tables key o.cap o.array 0
    (by simpa [OBJECT.len] using hb) hall
  unfold VAL_default_move_from_key_val
  simp only [hty, ne_eq, not_true_eq_false, if_false, hdata, VAL_type_data.read_object, hf]
  by_cases hlen : n = o.len
  · simp only [hlen, if_true]
    by_cases hfull : o.len = o.cap
    · by_cases hz : o.cap > 0
      · have : o.cap < o.cap * 2 := by omega
        simp [hfull, hz, this]
      · have h4 : o.cap < 4 := by omega
        simp [hfull, hz, h4]
    · have hlt : o.len < o.cap := by omega
      simp [hfull, hlt]
  · simp [hlen]

/-! ## Lemmas: values the operations build -/

theorem type_agrees_set_type (vp vp1 : VAL) (target : VAL_types) (r : OPS_RESULT)
    (ha : type_agrees vp) (h : VAL_default_set_type vp target = .ok (r, vp1)) :
    type_agrees vp1 := by
  unfold VAL_default_set_type at h
  split at h
  · simp only [Except.ok.injEq, Prod.mk.injEq] at h
    rw [← h.2]; exact ha
  · rename_i hc
    have hc2 : vp.type_id = VAL_UNDEFINED ∨ vp.type_id = target := by
      by_cases h0 : vp.type_id = VAL_UNDEFINED
      · exact Or.inl h0
      · right
        by_contra h1
        exact hc ⟨h0, h1⟩
    split at h
    · simp only [Except.ok.injEq, Prod.mk.injEq] at h
      rw [← h.2]
      exact ⟨OBJECT_new, rfl⟩
    · rename_i hno
      simp only [Except.ok.injEq, Prod.mk.injEq] at h
      rw [← h.2]
      rcases hc2 with h0 | h0
      · have hz : vp.type_data = VAL_type_data.zero := by
          simpa [type_agrees, h0] using ha
        cases target with
        | VAL_UNDEFINED => simpa [type_agrees] using hz
        | VAL_INT32 => simp [type_agrees, hz]
        | VAL_STRING => simp [type_agrees, hz]
        | VAL_OBJECT => exact absurd rfl (hno)
      · have : ({ vp with type_id := target } : VAL) = vp := by
          cases vp; simp only at h0; subst h0; rfl
        rw [this]; exact ha

theorem type_agrees_copy_from_int32 (vp vp1 : VAL) (n : Int) (r : OPS_RESULT)
    (ha : type_agrees vp) (h : VAL_default_copy_from_int32 vp n = .ok (r, vp1)) :
    type_agrees vp1 := by
  unfold VAL_default_copy_from_int32 at h
  split at h
  · rename_i hty
    simp only [Except.ok.injEq, Prod.mk.injEq] at h
    rw [← h.2]
    simp [type_agrees, hty]
  · rename_i hty
    split at h
    · cases h
    · split at h
      · cases h
      · simp only [Except.ok.injEq, Prod.mk.injEq] at h
        rw [← h.2]
        simp [type_agrees, hty]
  · simp only [Except.ok.injEq, Prod.mk.injEq] at h
    rw [← h.2]; exact ha

theorem type_agrees_copy_from_string (vp vp1 : VAL) (s : List Char) (r : OPS_RESULT)
    (ha : type_agrees vp) (h : VAL_default_copy_from_string vp s = .ok (r, vp1)) :
    type_agrees vp1 := by
  unfold VAL_default_copy_from_string at h
  split at h
  · rename_i hty
    simp only at h
    split_ifs at h
    · simp only [Except.ok.injEq, Prod.mk.injEq] at h
      rw [← h.2]; exact ha
    · simp only [Except.ok.injEq, Prod.mk.injEq] at h
      rw [← h.2]
      simp [type_agrees, hty]
  · rename_i hty
    split at h
    · cases h
    · split at h
      · simp only [Except.ok.injEq, Prod.mk.injEq] at h
        rw [← h.2]
        simp [type_agrees, hty]
      · cases h
  · simp only [Except.ok.injEq, Prod.mk.injEq] at h
    rw [← h.2]; exact ha

theorem move_result_shape (tables : Nat → Option VAL_OPS) (vp key val : VAL)
    (out : MoveOutcome) (h : VAL_default_move_from_key_val tables vp key val = .ok out) :
    out.vp = vp ∨
      (vp.type_id = VAL_OBJECT ∧ ∃ o o1 : OBJECT VAL,
        vp.type_data = VAL_type_data.object (some o) ∧
        out.vp.type_data = VAL_type_data.object (some o1) ∧
        ∀ kv ∈ o1.array, kv ∈ o.array ∨ kv = { key := key, val := val }) := by
  by_cases hty : vp.type_id = VAL_OBJECT
  · right
    cases hr : vp.type_data.read_object with
    | none =>
      unfold VAL_default_move_from_key_val at h
      simp only [hty, ne_eq, not_true_eq_false, if_false, hr] at h
      cases h
    | some p =>
      cases p with
      | none =>
        unfold VAL_default_move_from_key_val at h
        simp only [hty, ne_eq, not_true_eq_false, if_false, hr] at h
        cases h
      | some o =>
        have hdata := read_object_some hr
        refine ⟨hty, o, ?_⟩
        rcases move_inv tables vp key val o out hty hdata h with
          ⟨cap, hd, _⟩ | ⟨pre, old, post, hs, hd, _, _⟩
        · refine ⟨_, hdata, hd, ?_⟩
          intro kv hkv
          simp only [List.mem_append, List.mem_singleton] at hkv
          exact hkv
        · refine ⟨_, hdata, hd, ?_⟩
          intro kv hkv
          simp only [List.mem_append, List.mem_cons] at hkv
          rw [hs]
          rcases hkv with hk | rfl | hk
          · left; simp [hk]
          · right; rfl
          · left; simp [hk]
  · left
    unfold VAL_default_move_from_key_val at h
    simp only [ne_eq, hty, not_false_eq_true, if_true, Except.ok.injEq] at h
    rw [← h]

theorem type_agrees_move (tables : Nat → Option VAL_OPS) (vp key val : VAL)
    (out : MoveOutcome) (ha : type_agrees vp)
    (h : VAL_default_move_from_key_val tables vp key val = .ok out) :
    type_agrees out.vp := by
  have hty := move_from_key_val_keeps_type tables vp key val out h
  rcases move_result_shape tables vp key val out h with he | ⟨hobj, o, o1, _, hd1, _⟩
  · rw [he]; exact ha
  · have : out.vp.type_id = VAL_OBJECT := hty.trans hobj
    simp only [type_agrees, this]
    exact ⟨o1, hd1⟩

theorem reachable_type_agrees (tables : Nat → Option VAL_OPS) (v : VAL)
    (h : reachable tables v) : type_agrees v := by
  induction h with
  | fresh => simp [type_agrees, VAL_new, VAL_template]
  | set_type vp vp1 target r _ hs ih => exact type_agrees_set_type vp vp1 target r ih hs
  | copy_from_int32 vp vp1 n r _ hs ih => exact type_agrees_copy_from_int32 vp vp1 n r ih hs
  | copy_from_string vp vp1 s r _ hs ih => exact type_agrees_copy_from_string vp vp1 s r ih hs
  | move_from_key_val vp key val out _ _ _ hs ih _ _ =>
    exact type_agrees_move tables vp key val out ih hs

theorem set_type_data (vp vp1 : VAL) (target : VAL_types) (r : OPS_RESULT)
    (h : VAL_default_set_type vp target = .ok (r, vp1)) :
    vp1.type_data = vp.type_data ∨ vp1.type_data = VAL_type_data.object (some OBJECT_new) := by
  unfold VAL_default_set_type at h
  split at h
  · simp only [Except.ok.injEq, Prod.mk.injEq] at h
    left; rw [← h.2]
  · split at h
    · simp only [Except.ok.injEq, Prod.mk.injEq] at h
      right; rw [← h.2]
    · simp only [Except.ok.injEq, Prod.mk.injEq] at h
      left; rw [← h.2]

theorem copy_from_int32_data (vp vp1 : VAL) (n : Int) (r : OPS_RESULT)
    (h : VAL_default_copy_from_int32 vp n = .ok (r, vp1)) :
    vp1.type_data = vp.type_data ∨ ∀ o, vp1.type_data ≠ VAL_type_data.object o := by
  unfold VAL_default_copy_from_int32 at h
  split at h
  · simp only [Except.ok.injEq, Prod.mk.injEq] at h
    right; rw [← h.2]; intro o; simp
  · split at h
    · cases h
    · split at h
      · cases h
      · simp only [Except.ok.injEq, Prod.mk.injEq] at h
        right; rw [← h.2]; intro o; simp
  · simp only [Except.ok.injEq, Prod.mk.injEq] at h
    left; rw [← h.2]

theorem copy_from_string_data (vp vp1 : VAL) (s : List Char) (r : OPS_RESULT)
    (h : VAL_default_copy_from_string vp s = .ok (r, vp1)) :
    vp1.type_data = vp.type_data ∨ ∀ o, vp1.type_data ≠ VAL_type_data.object o := by
  unfold VAL_default_copy_from_string at h
  split at h
  · simp only at h
    split_ifs at h
    · simp only [Except.ok.injEq, Prod.mk.injEq] at h
      left; rw [← h.2]
    · simp only [Except.ok.injEq, Prod.mk.injEq] at h
      right; rw [← h.2]; intro o; simp
  · split at h
    · cases h
    · split at h
      · simp only [Except.ok.injEq, Prod.mk.injEq] at h
        right; rw [← h.2]; intro o; simp
      · cases h
  · simp only [Except.ok.injEq, Prod.mk.injEq] at h
    left; rw [← h.2]

theorem reachable_children (tables : Nat → Option VAL_OPS) (v : VAL)
    (h : reachable tables v) :
    ∀ o : OBJECT VAL, v.type_data = VAL_type_data.object (some o) →
      ∀ kv ∈ o.array, reachable tables kv.key ∧ reachable tables kv.val := by
  induction h with
  | fresh => intro o ho; simp [VAL_new, VAL_template] at ho
  | set_type vp vp1 target r _ hs ih =>
    intro o ho kv hkv
    rcases set_type_data vp vp1 target r hs with hd | hd
    · exact ih o (hd ▸ ho) kv hkv
    · rw [hd] at ho
      simp only [VAL_type_data.object.injEq, Option.some.injEq] at ho
      rw [← ho] at hkv
      simp [OBJECT_new] at hkv
  | copy_from_int32 vp vp1 n r _ hs ih =>
    intro o ho kv hkv
    rcases copy_from_int32_data vp vp1 n r hs with hd | hd
    · exact ih o (hd ▸ ho) kv hkv
    · exact absurd ho (hd _)
  | copy_from_string vp vp1 s r _ hs ih =>
    intro o ho kv hkv
    rcases copy_from_string_data vp vp1 s r hs with hd | hd
    · exact ih o (hd ▸ ho) kv hkv
    · exact absurd ho (hd _)
  | move_from_key_val vp key val out _ hk hv hs ih _ _ =>
    intro o ho kv hkv
    rcases move_result_shape tables vp key val out hs with he | ⟨_, o0, o1, hd0, hd1, hmem⟩
    · rw [he] at ho
      exact ih o ho kv hkv
    · rw [hd1] at ho
      simp only [VAL_type_data.object.injEq, Option.some.injEq] at ho
      rw [← ho] at hkv
      rcases hmem kv hkv with hin | rfl
      · exact ih o0 hd0 kv hin
      · exact ⟨hk, hv⟩

/-! ## Lemmas: the text of an integer -/

theorem digit_value_digitChar (m : Nat) (h : m < 10) :
    digit_value (Nat.digitChar m) = some m := by
  interval_cases m <;> rfl

theorem digits_value_snoc (base : Nat) (ds : List Char) (c : Char) :
    digits_value base (ds ++ [c]) = digits_value base ds * base + (digit_value c).getD 0 := by
  simp only [digits_value, List.reverse_append, List.reverse_cons, List.reverse_nil,
    List.nil_append, List.singleton_append, List.map_cons, Nat.ofDigits_cons]
  ring

theorem toDigitsCore_decimal :
    ∀ (gas m : Nat) (tail : List Char), m < gas →
      ∃ numeral, decimal_digits m numeral ∧
        Nat.toDigitsCore 10 gas m tail = numeral ++ tail := by
  intro gas
  induction gas with
  | zero =>
    intro m tail hm
    omega
  | succ gas step =>
    intro m tail hm
    have hlast : m % 10 < 10 := Nat.mod_lt _ (by decide)
    have hdv := digit_value_digitChar (m % 10) hlast
    have hdig : is_digit 10 (Nat.digitChar (m % 10)) = true :=
      is_digit_iff.2 ⟨m % 10, hdv, hlast⟩
    unfold Nat.toDigitsCore
    by_cases hq : m / 10 = 0
    · have hsmall : m < 10 := by omega
      refine ⟨[Nat.digitChar (m % 10)], ⟨by simp, ?_, ?_, ?_⟩, by simp [hq]⟩
      · intro c hc
        rw [List.mem_singleton] at hc
        rw [hc]; exact hdig
      · intro hh
        simp only [List.head?_cons, Option.some.injEq] at hh
        rw [hh]
      · rw [digits_value_cons, hdv, digits_value_nil]
        simp only [Option.getD_some, List.length_nil, pow_zero, mul_one, add_zero]
        omega
    · obtain ⟨front, ⟨hne, hall, hz, hval⟩, hrun⟩ :=
        step (m / 10) (Nat.digitChar (m % 10) :: tail) (by omega)
      refine ⟨front ++ [Nat.digitChar (m % 10)], ⟨by simp, ?_, ?_, ?_⟩, by simp [hq, hrun]⟩
      · intro c hc
        rcases List.mem_append.1 hc with h | h
        · exact hall c h
        · rw [List.mem_singleton] at h
          rw [h]; exact hdig
      · intro hh
        exfalso
        cases front with
        | nil => exact hne rfl
        | cons d rest =>
          simp only [List.cons_append, List.head?_cons, Option.some.injEq] at hh
          have hd := hz (by simp [hh])
          rw [hd] at hval
          have : digits_value 10 ['0'] = 0 := by decide
          rw [this] at hval
          exact hq hval.symm
      · rw [digits_value_snoc, hval, hdv]
        simp only [Option.getD_some]
        omega

theorem toDigits_decimal (m : Nat) : decimal_digits m (Nat.toDigits 10 m) := by
  obtain ⟨numeral, hdec, hrun⟩ := toDigitsCore_decimal (m + 1) m [] (by omega)
  unfold Nat.toDigits
  rw [hrun, List.append_nil]
  exact hdec

theorem format_d_decimal_text (n : Int) : decimal_text n (format_d n) := by
  unfold format_d decimal_text
  by_cases h : n < 0
  · exact ⟨Nat.toDigits 10 n.natAbs, by simp [h], toDigits_decimal _⟩
  · exact ⟨Nat.toDigits 10 n.natAbs, by simp [h], toDigits_decimal _⟩

theorem format_d_length (n : Int) (hlo : INT_MIN ≤ n) (hhi : n ≤ INT_MAX) :
    (format_d n).length ≤ 11 := by
  have habs : n.natAbs < 10 ^ 10 := by
    simp only [INT_MIN, INT_MAX] at hlo hhi
    omega
  have hlen : (Nat.toDigits 10 n.natAbs).length ≤ 10 :=
    Nat.toDigitsCore_length 10 (by decide) _ _ 10 habs (by decide)
  unfold format_d
  split_ifs
  · simp only [List.length_cons]; omega
  · omega

/-! ## Lemmas: the text of an integer, read back -/

theorem copy_from_int32_string (vp : VAL) (n : Int) (p : Option (List Char))
    (hlo : INT_MIN ≤ n) (hhi : n ≤ INT_MAX) (hty : vp.type_id = VAL_STRING)
    (hp : vp.type_data.read_string = some p) :
    VAL_default_copy_from_int32 vp n =
      .ok (OPS_RESULT.of OPS_RESULT_OK,
        { vp with type_data := VAL_type_data.string (some (format_d n)) }) := by
  have hlen := format_d_length n hlo hhi
  have hno : ¬ ((format_d n).length ≥ MAX_INTSTRING_LEN) := by
    simp only [MAX_INTSTRING_LEN]; omega
  unfold VAL_default_copy_from_int32
  simp only [hty, hp, hno, if_false]

theorem decimal_digits_literal {m : Nat} {ds : List Char} (h : decimal_digits m ds) :
    ∃ base, int_literal ds base m := by
  obtain ⟨hne, hall, hz, hval⟩ := h
  cases ds with
  | nil => exact absurd rfl hne
  | cons d rest =>
    by_cases hd : d = '0'
    · have hds := hz (by simp [hd])
      simp only [List.cons.injEq] at hds
      obtain ⟨_, hrest⟩ := hds
      subst hd hrest
      have hm : m = digits_value 8 ['0'] := by
        rw [← hval]; decide
      rw [hm]
      exact ⟨8, int_literal.octal [] (by simp)⟩
    · rw [← hval]
      exact ⟨10, int_literal.decimal d rest (hall d (List.mem_cons_self _ _)) hd
        (fun c hc => hall c (List.mem_cons_of_mem _ hc))⟩

theorem copy_from_string_format_d (iv : VAL) (n : Int) (hlo : INT_MIN ≤ n) (hhi : n ≤ INT_MAX)
    (hi : iv.type_id = VAL_INT32) :
    VAL_default_copy_from_string iv (format_d n) =
      .ok (OPS_RESULT.of OPS_RESULT_OK, { iv with type_data := VAL_type_data.int32 n }) := by
  obtain ⟨ds, htext, hdec⟩ := format_d_decimal_text n
  obtain ⟨base, hlit⟩ := decimal_digits_literal hdec
  by_cases hneg : n < 0
  · have hsv : signed_value (some true) n.natAbs = n := by
      simp only [signed_value, if_true]; omega
    have h := copy_from_string_literal iv [] (some true) ds [] base n.natAbs hi (by simp) hlit rfl
    rw [hsv] at h
    have hs : ([] : List Char) ++ sign_chars (some true) ++ ds ++ [] = format_d n := by
      rw [htext]; simp [sign_chars, hneg]
    rw [hs] at h
    rw [h, if_pos ⟨rfl, hlo, hhi⟩]
  · have hsv : signed_value none n.natAbs = n := by
      simp only [signed_value]
      simp only [reduceCtorEq, if_false]
      omega
    have h := copy_from_string_literal iv [] none ds [] base n.natAbs hi (by simp) hlit rfl
    rw [hsv] at h
    have hs : ([] : List Char) ++ sign_chars none ++ ds ++ [] = format_d n := by
      rw [htext]; simp [sign_chars, hneg]
    rw [hs] at h
    rw [h, if_pos ⟨rfl, hlo, hhi⟩]

/-! ## Lemmas: the loop of the driver -/

theorem parse_key_copy (k : List Char) (n : Int) (h : parse_key k = some n) :
    VAL_default_copy_from_string { VAL_template with type_id := VAL_INT32 } k =
      .ok (OPS_RESULT.of OPS_RESULT_OK, int_val n) := by
  unfold parse_key at h
  unfold VAL_default_copy_from_string at h ⊢
  simp only at h ⊢
  split_ifs at h ⊢ with hc
  · simp [result_ok, OPS_RESULT.of] at h
  · simp only [VAL_type_data.read_int32, OPS_RESULT.of, result_ok, decide_True, if_true,
      Option.some.injEq] at h
    rw [h]
    rfl

theorem unwrap_call_ok {α : Type} (tables : Nat → Option VAL_OPS) (a : α) :
    unwrap_call tables (.ok (OPS_RESULT.of OPS_RESULT_OK, a)) = ([], .ok a) := by
  rfl

theorem keys_equal_int_val (tables : Nat → Option VAL_OPS) (a b : Int) :
    keys_equal tables (int_val a) (int_val b) = decide (a = b) := by
  by_cases h : a = b
  · have h2 : b = a := h.symm
    simp [keys_equal, VAL_is_equal, ops_is_equal, int_val, VAL_template, VAL_default_is_equal,
      VAL_type_data.read_int32, h, result_ok, OPS_RESULT.of]
  · have h2 : ¬ b = a := fun e => h e.symm
    simp [keys_equal, VAL_is_equal, ops_is_equal, int_val, VAL_template, VAL_default_is_equal,
      VAL_type_data.read_int32, h, h2, result_ok, OPS_RESULT.of]

theorem keys_differ_int_val (tables : Nat → Option VAL_OPS) (a b : Int) :
    keys_differ tables (int_val a) (int_val b) = decide (a ≠ b) := by
  have hd : default_key_ok (int_val a) = true := rfl
  have hd2 : default_key_ok (int_val b) = true := rfl
  rw [keys_differ_of_default tables _ _ hd hd2, keys_equal_int_val]
  by_cases h : a = b <;> simp [h]

theorem upsert_cases (acc : List (Int × List Char)) (p : Int × List Char) :
    ((∀ q ∈ acc, q.1 ≠ p.1) ∧ upsert acc p = acc ++ [p]) ∨
    (∃ pre old post, acc = pre ++ old :: post ∧ (∀ q ∈ pre, q.1 ≠ p.1) ∧ old.1 = p.1 ∧
      upsert acc p = pre ++ p :: post) := by
  induction acc with
  | nil => left; exact ⟨by simp, rfl⟩
  | cons q rest ih =>
    by_cases hq : q.1 = p.1
    · right
      exact ⟨[], q, rest, rfl, by simp, hq, by simp [upsert, hq]⟩
    · rcases ih with ⟨hall, hu⟩ | ⟨pre, old, post, hs, hpre, hold, hu⟩
      · left
        refine ⟨?_, by simp [upsert, hq, hu]⟩
        intro x hx
        rcases List.mem_cons.1 hx with rfl | hx
        · exact hq
        · exact hall x hx
      · right
        refine ⟨q :: pre, old, post, by rw [hs]; rfl, ?_, hold, by simp [upsert, hq, hu]⟩
        intro x hx
        rcases List.mem_cons.1 hx with rfl | hx
        · exact hq
        · exact hpre x hx

theorem upsert_length (acc : List (Int × List Char)) (p : Int × List Char) :
    acc.length ≤ (upsert acc p).length ∧ (upsert acc p).length ≤ acc.length + 1 := by
  rcases upsert_cases acc p with ⟨_, hu⟩ | ⟨pre, old, post, hs, _, _, hu⟩
  · rw [hu]; simp
  · rw [hu, hs]; simp

theorem slots_mem {ps : List (Int × List Char)} {kv : OBJECT_KV VAL} (h : kv ∈ slots ps) :
    ∃ q ∈ ps, kv = { key := int_val q.1, val := string_val q.2 } := by
  simp only [slots, List.mem_map] at h
  obtain ⟨q, hq, he⟩ := h
  exact ⟨q, hq, he.symm⟩

theorem move_slots (tables : Nat → Option VAL_OPS) (acc : List (Int × List Char)) (cap : Nat)
    (p : Int × List Char) (hcap : acc.length ≤ cap) :
    ∃ cap1 del, (upsert acc p).length ≤ cap1 ∧
      VAL_default_move_from_key_val tables (object_val { array := slots acc, cap := cap })
          (int_val p.1) (string_val p.2) =
        .ok { result := OPS_RESULT.of OPS_RESULT_OK
              vp := object_val { array := slots (upsert acc p), cap := cap1 }
              deleted := del } := by
  have hlen : ({ array := slots acc, cap := cap } : OBJECT VAL).len ≤ cap := by
    simpa [OBJECT.len, slots] using hcap
  rcases upsert_cases acc p with ⟨hall, hu⟩ | ⟨pre, old, post, hs, hpre, hold, hu⟩
  · have hne : ∀ kv ∈ ({ array := slots acc, cap := cap } : OBJECT VAL).array,
        keys_differ tables kv.key (int_val p.1) = true := by
      intro kv hkv
      obtain ⟨q, hq, rfl⟩ := slots_mem hkv
      simp only [keys_differ_int_val, decide_eq_true_eq]
      exact hall q hq
    have hm := move_miss tables (object_val { array := slots acc, cap := cap }) (int_val p.1)
      (string_val p.2) { array := slots acc, cap := cap } rfl rfl hlen hne
    refine ⟨(if acc.length = cap then (if cap = 0 then 4 else 2 * cap) else cap), [], ?_, ?_⟩
    · rw [hu]
      simp only [List.length_append, List.length_singleton]
      split_ifs <;> omega
    · rw [hm, hu]
      simp only [OBJECT.len, slots, List.length_map, List.map_append, List.map_cons,
        List.map_nil]
      rfl
  · have hpre2 : ∀ kv ∈ slots pre, keys_differ tables kv.key (int_val p.1) = true := by
      intro kv hkv
      obtain ⟨q, hq, rfl⟩ := slots_mem hkv
      simp only [keys_differ_int_val, decide_eq_true_eq]
      exact hpre q hq
    have hold2 : keys_equal tables (int_val old.1) (int_val p.1) = true := by
      simp [keys_equal_int_val, hold]
    have hsplit : ({ array := slots acc, cap := cap } : OBJECT VAL).array =
        slots pre ++ { key := int_val old.1, val := string_val old.2 } :: slots post := by
      simp [slots, hs]
    have hm := move_hit tables (object_val { array := slots acc, cap := cap }) (int_val p.1)
      (string_val p.2) { array := slots acc, cap := cap } (slots pre) (slots post)
      { key := int_val old.1, val := string_val old.2 } rfl rfl hlen hsplit hpre2 hold2
    refine ⟨cap, [int_val old.1, string_val old.2], ?_, ?_⟩
    · rw [hu]
      rw [hs] at hcap
      simpa using hcap
    · rw [hm, hu]
      simp only [slots, List.map_append, List.map_cons]
      rfl

theorem main_body_ok (acc : List (Int × List Char)) (cap : Nat) (k v : List Char) (n : Int)
    (hcap : acc.length ≤ cap) (hk : parse_key k = some n) (hv : v.length < 2147483647) :
    ∃ cap1, (upsert acc (n, v)).length ≤ cap1 ∧
      main_body no_tables (object_val { array := slots acc, cap := cap }) k v =
        ([], .ok (object_val { array := slots (upsert acc (n, v)), cap := cap1 })) := by
  obtain ⟨cap1, del, hlen, hm⟩ := move_slots no_tables acc cap (n, v) hcap
  refine ⟨cap1, hlen, ?_⟩
  have h1 : call_set_type no_tables VAL_new VAL_INT32 =
      .ok (OPS_RESULT.of OPS_RESULT_OK, { VAL_template with type_id := VAL_INT32 }) := rfl
  have h2 : call_copy_from_string no_tables { VAL_template with type_id := VAL_INT32 } k =
      .ok (OPS_RESULT.of OPS_RESULT_OK, int_val n) := parse_key_copy k n hk
  have h3 : call_set_type no_tables VAL_new VAL_STRING =
      .ok (OPS_RESULT.of OPS_RESULT_OK, { VAL_template with type_id := VAL_STRING }) := rfl
  have h4 : call_copy_from_string no_tables { VAL_template with type_id := VAL_STRING } v =
      .ok (OPS_RESULT.of OPS_RESULT_OK, string_val v) := by
    show VAL_default_copy_from_string { VAL_template with type_id := VAL_STRING } v = _
    unfold VAL_default_copy_from_string
    simp only [VAL_template, VAL_type_data.read_string, hv, if_true]
    rfl
  have h5 : call_move_from_key_val no_tables (object_val { array := slots acc, cap := cap })
      (int_val n) (string_val v) = .ok
        { result := OPS_RESULT.of OPS_RESULT_OK
          vp := object_val { array := slots (upsert acc (n, v)), cap := cap1 }
          deleted := del } := hm
  unfold main_body
  rw [h1, unwrap_call_ok]
  simp only [and_then, List.nil_append]
  rw [h2, unwrap_call_ok]
  simp only [h3, unwrap_call_ok, h4, h5]
  rfl

theorem main_loop_ok :
    ∀ (m : Nat) (args : List (List Char)) (kvs acc : List (Int × List Char)) (cap : Nat),
      args.length ≤ m →
      acc.length ≤ cap → parsed_pairs args = some kvs →
      (∀ p ∈ kvs, p.2.length < 2147483647) →
      ∃ cap1, (kvs.foldl upsert acc).length ≤ cap1 ∧
        main_loop no_tables (object_val { array := slots acc, cap := cap }) args =
          ([], .ok (object_val { array := slots (kvs.foldl upsert acc), cap := cap1 })) := by
  intro m
  induction m with
  | zero =>
    intro args kvs acc cap hm hcap hp _
    have : args = [] := List.length_eq_zero.1 (by omega)
    subst this
    simp only [parsed_pairs, Option.some.injEq] at hp
    subst hp
    exact ⟨cap, hcap, rfl⟩
  | succ m ih =>
    intro args kvs acc cap hm hcap hp hv
    match args, hm, hp with
    | [], _, hp =>
      simp only [parsed_pairs, Option.some.injEq] at hp
      subst hp
      exact ⟨cap, hcap, rfl⟩
    | [_], _, hp =>
      simp only [parsed_pairs, Option.some.injEq] at hp
      subst hp
      exact ⟨cap, hcap, rfl⟩
    | k :: v :: rest, hm, hp =>
      simp only [parsed_pairs] at hp
      cases hk : parse_key k with
      | none => rw [hk] at hp; cases hp
      | some n =>
        cases hr : parsed_pairs rest with
        | none => rw [hk, hr] at hp; cases hp
        | some l =>
          rw [hk, hr] at hp
          simp only [Option.some.injEq] at hp
          subst hp
          obtain ⟨cap1, hlen1, hb⟩ := main_body_ok acc cap k v n hcap hk
            (hv (n, v) (List.mem_cons_self _ _))
          obtain ⟨cap2, hlen2, hl⟩ := ih rest l (upsert acc (n, v)) cap1
            (by simp only [List.length_cons] at hm; omega) hlen1 hr
            (fun p hp => hv p (List.mem_cons_of_mem _ hp))
          refine ⟨cap2, hlen2, ?_⟩
          simp only [main_loop, hb, and_then, hl, List.foldl_cons, List.nil_append]

/-! ## Lemmas: rendering and deleting the container of the driver -/

theorem debug_print_int_val (tables : Nat → Option VAL_OPS) (n : Int) :
    VAL_default_debug_print tables (int_val n) = .ok (OPS_RESULT.of OPS_RESULT_OK, format_d n) := by
  rfl

theorem debug_print_string_val (tables : Nat → Option VAL_OPS) (s : List Char) :
    VAL_default_debug_print tables (string_val s) =
      .ok (OPS_RESULT.of OPS_RESULT_OK, ['\x22'] ++ s ++ ['\x22']) := by
  rfl

theorem debug_print_slots_cons (tables : Nat → Option VAL_OPS) (cap : Nat) (p : Int × List Char)
    (rest : List (OBJECT_KV VAL)) (i : Nat) (hi : i < cap) :
    debug_print_slots tables cap ({ key := int_val p.1, val := string_val p.2 } :: rest) i =
      match debug_print_slots tables cap rest (i + 1) with
      | .error e => .error e
      | .ok more => .ok ((if i > 0 then [',', ' '] else []) ++ render_pair p ++ more) := by
  rw [debug_print_slots]
  simp only [hi, if_true]
  have hk : (int_val p.1).ops = OpsRef.template := rfl
  have hv : (string_val p.2).ops = OpsRef.template := rfl
  simp only [hk, hv, debug_print_int_val, debug_print_string_val, render_pair]
  cases debug_print_slots tables cap rest (i + 1) with
  | error e => rfl
  | ok more => simp

theorem debug_print_slots_tail (tables : Nat → Option VAL_OPS) (cap : Nat) :
    ∀ (ps : List (Int × List Char)) (i : Nat), 0 < i → i + ps.length ≤ cap →
      debug_print_slots tables cap (slots ps) i =
        .ok ((ps.map (fun p => [',', ' '] ++ render_pair p)).flatten) := by
  intro ps
  induction ps with
  | nil => intro i _ _; rfl
  | cons p rest ih =>
    intro i hpos hcap
    simp only [List.length_cons] at hcap
    have hrest := ih (i + 1) (by omega) (by omega)
    simp only [slots] at hrest
    simp only [slots, List.map_cons]
    rw [debug_print_slots_cons tables cap p _ i (by omega), hrest]
    simp [hpos]

theorem intercalate_cons_eq (sep x : List Char) (xs : List (List Char)) :
    List.intercalate sep (x :: xs) = x ++ (xs.map (fun y => sep ++ y)).flatten := by
  induction xs generalizing x with
  | nil => simp [List.intercalate]
  | cons y ys ih =>
    have h := ih y
    simp only [List.intercalate, List.intersperse_cons_cons, List.flatten_cons,
      List.map_cons] at h ⊢
    rw [h]
    simp

theorem debug_print_slots_all (tables : Nat → Option VAL_OPS) (cap : Nat)
    (ps : List (Int × List Char)) (hcap : ps.length ≤ cap) :
    debug_print_slots tables cap (slots ps) 0 =
      .ok (List.intercalate [',', ' '] (ps.map render_pair)) := by
  cases ps with
  | nil => rfl
  | cons p rest =>
    simp only [List.length_cons] at hcap
    have hrest := debug_print_slots_tail tables cap rest 1 (by omega) (by omega)
    simp only [slots] at hrest
    simp only [slots, List.map_cons]
    rw [debug_print_slots_cons tables cap p _ 0 (by omega), hrest, intercalate_cons_eq]
    simp [List.map_map, Function.comp_def]

theorem debug_print_object (tables : Nat → Option VAL_OPS) (cap : Nat)
    (ps : List (Int × List Char)) (hcap : ps.length ≤ cap) :
    call_debug_print tables (object_val { array := slots ps, cap := cap }) =
      .ok (OPS_RESULT.of OPS_RESULT_OK, render_pairs ps) := by
  show VAL_default_debug_print tables (object_val { array := slots ps, cap := cap }) = _
  simp only [object_val, VAL_template]
  rw [VAL_default_debug_print]
  simp only [debug_print_slots_all tables cap ps hcap, render_pairs]

theorem VAL_delete_int_val (n : Int) : VAL_delete (int_val n) = .ok none := by
  rfl

theorem VAL_delete_string_val (s : List Char) : VAL_delete (string_val s) = .ok none := by
  rfl

theorem OBJECT_delete_slots_ok (cap : Nat) :
    ∀ (ps : List (Int × List Char)) (i : Nat), i + ps.length ≤ cap →
      OBJECT_delete_slots cap (slots ps) i = .ok () := by
  intro ps
  induction ps with
  | nil => intro i _; rfl
  | cons p rest ih =>
    intro i hcap
    simp only [List.length_cons] at hcap
    have hlt : i < cap := by omega
    have hrest := ih (i + 1) (by omega)
    simp only [slots] at hrest
    simp only [slots, List.map_cons]
    rw [OBJECT_delete_slots]
    simp only [hlt, if_true, VAL_delete_int_val, VAL_delete_string_val, hrest]

theorem VAL_delete_object (cap : Nat) (ps : List (Int × List Char)) (hcap : ps.length ≤ cap) :
    VAL_delete (object_val { array := slots ps, cap := cap }) = .ok none := by
  simp only [object_val, VAL_template]
  rw [VAL_delete]
  have := OBJECT_delete_slots_ok cap ps 0 (by omega)
  have hdec : size_dec 1 = 0 := rfl
  simp [this, hdec]

/-! ## Lemmas: the output of the driver -/

theorem first_keys_mem (x : Int) : ∀ ks : List Int, x ∈ first_keys ks ↔ x ∈ ks := by
  intro ks
  induction ks with
  | nil => simp [first_keys]
  | cons k ks ih =>
    simp only [first_keys, List.mem_cons, List.mem_filter, decide_eq_true_eq, ih]
    constructor
    · rintro (h | ⟨h, _⟩)
      · exact Or.inl h
      · exact Or.inr h
    · rintro (h | h)
      · exact Or.inl h
      · by_cases hx : x = k
        · exact Or.inl hx
        · exact Or.inr ⟨h, hx⟩

theorem first_keys_nodup : ∀ ks : List Int, (first_keys ks).Nodup := by
  intro ks
  induction ks with
  | nil => simp [first_keys]
  | cons k ks ih =>
    simp only [first_keys, List.nodup_cons, List.mem_filter, decide_eq_true_eq, ne_eq,
      not_true_eq_false, and_false, not_false_eq_true, true_and]
    exact ih.filter _

theorem first_keys_snoc (k : Int) : ∀ ks : List Int,
    first_keys (ks ++ [k]) = if k ∈ ks then first_keys ks else first_keys ks ++ [k] := by
  intro ks
  induction ks with
  | nil => simp [first_keys]
  | cons a ks ih =>
    rw [List.cons_append, first_keys, ih, first_keys]
    by_cases hk : k ∈ ks
    · simp [hk]
    · by_cases ha : k = a
      · subst ha
        simp [hk, List.filter_append]
      · have ha2 : ¬ a = k := fun e => ha e.symm
        simp [hk, ha, ha2, List.filter_append]

theorem last_value_snoc (a : Int) (p : Int × List Char) : ∀ kvs : List (Int × List Char),
    last_value a (kvs ++ [p]) = if p.1 = a then some p.2 else last_value a kvs := by
  intro kvs
  induction kvs with
  | nil => simp [last_value]
  | cons q kvs ih =>
    rw [List.cons_append, last_value, ih, last_value]
    by_cases hp : p.1 = a
    · simp [hp]
    · simp [hp]

theorem upsert_map_hit (f g : Int → List Char) (k : Int) (v : List Char) :
    ∀ l : List Int, l.Nodup → k ∈ l → g k = v → (∀ a ∈ l, a ≠ k → g a = f a) →
      upsert (l.map (fun a => (a, f a))) (k, v) = l.map (fun a => (a, g a)) := by
  intro l
  induction l with
  | nil => intro _ h; cases h
  | cons a rest ih =>
    intro hnd hk hgk hg
    rw [List.nodup_cons] at hnd
    by_cases ha : a = k
    · subst ha
      simp only [List.map_cons, upsert, if_true, hgk, List.cons.injEq, true_and]
      apply List.map_congr_left
      intro b hb
      have hne : b ≠ a := fun e => hnd.1 (e ▸ hb)
      rw [hg b (List.mem_cons_of_mem _ hb) hne]
    · have hk2 : k ∈ rest := by
        rcases List.mem_cons.1 hk with h | h
        · exact absurd h.symm ha
        · exact h
      simp only [List.map_cons, upsert, ha, if_false, List.cons.injEq]
      refine ⟨by rw [hg a (List.mem_cons_self _ _) ha], ?_⟩
      exact ih hnd.2 hk2 hgk (fun b hb hne => hg b (List.mem_cons_of_mem _ hb) hne)

theorem upsert_map_miss (f : Int → List Char) (k : Int) (v : List Char) :
    ∀ l : List Int, k ∉ l →
      upsert (l.map (fun a => (a, f a))) (k, v) = l.map (fun a => (a, f a)) ++ [(k, v)] := by
  intro l
  induction l with
  | nil => intro _; rfl
  | cons a rest ih =>
    intro hk
    have ha : ¬ a = k := fun e => hk (e ▸ List.mem_cons_self _ _)
    have hk2 : k ∉ rest := fun h => hk (List.mem_cons_of_mem _ h)
    simp only [List.map_cons, upsert, ha, if_false, ih hk2, List.cons_append]

theorem expected_pairs_snoc (kvs : List (Int × List Char)) (p : Int × List Char) :
    expected_pairs (kvs ++ [p]) = upsert (expected_pairs kvs) p := by
  obtain ⟨k, v⟩ := p
  unfold expected_pairs
  rw [List.map_append, List.map_cons, List.map_nil, first_keys_snoc]
  by_cases hk : k ∈ kvs.map Prod.fst
  · rw [if_pos hk]
    symm
    apply upsert_map_hit _ _ k v _ (first_keys_nodup _) ((first_keys_mem k _).2 hk)
    · simp [last_value_snoc]
    · intro a _ hne
      have : ¬ k = a := fun e => hne e.symm
      simp [last_value_snoc, this]
  · rw [if_neg hk, List.map_append, List.map_cons, List.map_nil]
    rw [upsert_map_miss _ k v _ (fun h => hk ((first_keys_mem k _).1 h))]
    congr 1
    · apply List.map_congr_left
      intro a ha
      have hne : ¬ k = a := fun e => hk ((first_keys_mem k _).1 (e ▸ ha))
      simp [last_value_snoc, hne]
    · simp [last_value_snoc]

theorem foldl_upsert_eq (kvs : List (Int × List Char)) :
    kvs.foldl upsert [] = expected_pairs kvs := by
  induction kvs using List.reverseRecOn with
  | nil => rfl
  | append_singleton l p ih =>
    rw [List.foldl_append, List.foldl_cons, List.foldl_nil, ih, expected_pairs_snoc]

theorem main_ok (args : List (List Char)) (kvs : List (Int × List Char))
    (hp : parsed_pairs args = some kvs) (hv : ∀ p ∈ kvs, p.2.length < 2147483647) :
    main args = (render_pairs (expected_pairs kvs) ++ ['\n'], .ok 0) := by
  obtain ⟨cap1, hlen, hloop⟩ := main_loop_ok args.length args kvs [] 0 (le_refl _)
    (by simp) hp hv
  rw [foldl_upsert_eq] at hlen hloop
  have h0 : unwrap_call no_tables (call_set_type no_tables VAL_new VAL_OBJECT) =
      ([], .ok (object_val { array := slots [], cap := 0 })) := rfl
  unfold main
  rw [h0]
  simp only [and_then, hloop, debug_print_object no_tables cap1 _ hlen,
    VAL_delete_object cap1 _ hlen, List.nil_append]

theorem write_index_in_bounds (tables : Nat → Option VAL_OPS) (key : VAL) (o : OBJECT VAL)
    (i : Nat) (del : List VAL) (hb : o.len ≤ o.cap)
    (hf : find_existing_key tables key o.cap o.array 0 = .ok (i, del)) :
    i ≤ o.len ∧
      i < (if i = o.len then (if i = o.cap then (if o.cap > 0 then o.cap * 2 else 4) else o.cap)
        else o.cap) := by
  simp only [OBJECT.len] at hb ⊢
  rcases find_existing_key_inv tables key o.cap o.array 0 i del hf with
    ⟨hn, _, _⟩ | ⟨pre, old, post, hs, hn, _, _, _⟩
  · have hi : i = o.array.length := by omega
    refine ⟨by omega, ?_⟩
    rw [if_pos hi]
    split_ifs <;> omega
  · have hlen : o.array.length = pre.length + (post.length + 1) := by rw [hs]; simp
    have hi : ¬ i = o.array.length := by omega
    refine ⟨by omega, ?_⟩
    rw [if_neg hi]
    omega

/-! ## Lemmas: the length bound of the String copy -/

/-- The copy into a String value is undefined at the first length whose successor is not an
`int`: `r + 1` overflows for a text of `INT_MAX` characters. -/
theorem copy_from_string_overflows_at_int_max (vp : VAL) (c : Char)
    (hty : vp.type_id = VAL_STRING) :
    VAL_default_copy_from_string vp (List.replicate 2147483647 c) = .error Fault.undefined := by
  have hlen : ¬ ((List.replicate 2147483647 c).length < 2147483647) := by
    rw [List.length_replicate]; exact Nat.lt_irrefl _
  unfold VAL_default_copy_from_string
  rw [hty]
  cases vp.type_data.read_string with
  | none => rfl
  | some b => exact if_neg hlen

/-- One character below that length the copy is defined: `r + 1` is `INT_MAX`. -/
theorem copy_from_string_defined_below_int_max (vp : VAL) (c : Char) (b : Option (List Char))
    (hty : vp.type_id = VAL_STRING) (hb : vp.type_data.read_string = some b) :
    VAL_default_copy_from_string vp (List.replicate 2147483646 c) =
      .ok (OPS_RESULT.of OPS_RESULT_OK,
        { vp with type_data := VAL_type_data.string (some (List.replicate 2147483646 c)) }) := by
  have hlen : (List.replicate 2147483646 c).length < 2147483647 := by
    rw [List.length_replicate]; exact Nat.lt_succ_self _
  unfold VAL_default_copy_from_string
  rw [hty]
  simp only [hb]
  exact if_pos hlen

/-! ## The claims -/

/-- C1: on an Object whose buffer holds its slots (`len ≤ cap`), for every key and value
and whatever the operations tables and payloads of the values are, if some stored key is
reported equal to `key` by `VAL_is_equal` and every comparison of the scan before it returns
a verdict (equal or not equal; the comparison of two String keys of which one has no buffer
returns none), then `insertPair` returns Ok, the first slot whose key is reported equal
(after the slots `pre`, none of which holds an equal key) now holds `(key, val)`, the slots
before and after it are unchanged and in the same order, the length and the capacity are
unchanged, and `VAL_delete` was called exactly on the old key and the old value of that
slot, once each.  The slots after the match are never compared and are not constrained. -/
theorem insertPair_existing_key_replaces_in_place (tables : Nat → Option VAL_OPS)
    (vp key val : VAL) (o : OBJECT VAL)
    (hty : vp.type_id = VAL_OBJECT) (hdata : vp.type_data = VAL_type_data.object (some o))
    (hcap : o.len ≤ o.cap)
    (hex : ∃ pre0 mid post0, o.array = pre0 ++ mid :: post0 ∧
      keys_equal tables mid.key key = true ∧
      ∀ kv ∈ pre0, keys_equal tables kv.key key = true ∨ keys_differ tables kv.key key = true) :
    ∃ pre old post, o.array = pre ++ old :: post ∧
      (∀ kv ∈ pre, keys_equal tables kv.key key = false) ∧
      keys_equal tables old.key key = true ∧
      VAL_default_move_from_key_val tables vp key val =
        .ok { result := OPS_RESULT.of OPS_RESULT_OK
              vp := { vp with
                type_data := VAL_type_data.object
                  (some { array := pre ++ { key := key, val := val } :: post, cap := o.cap }) }
              deleted := [old.key, old.val] } ∧
      (pre ++ ({ key := key, val := val } : OBJECT_KV VAL) :: post).length = o.len ∧
      (pre ++ ({ key := key, val := val } : OBJECT_KV VAL) :: post)[pre.length]?
        = some { key := key, val := val } := by
  obtain ⟨pre0, mid, post0, hs0, hmid, hret⟩ := hex
  obtain ⟨pre, old, post, hs1, hpre, hold⟩ := first_verdict_split tables key pre0 mid post0 hmid hret
  have hs : o.array = pre ++ old :: post := hs0.trans hs1
  refine ⟨pre, old, post, hs, fun kv hkv => keys_equal_false_of_differ (hpre kv hkv), hold,
    move_hit tables vp key val o pre post old hty hdata hcap hs hpre hold, ?_, ?_⟩
  · simp [OBJECT.len, hs]
  · rw [List.getElem?_append_right (le_refl _)]
    simp

theorem insertPair_existing_key_replaces_in_place_witness :
    ∃ pre old post,
      [({ key := { VAL_template with type_id := VAL_STRING }, val := string_val ['a'] } :
          OBJECT_KV VAL),
        { key := int_val 1, val := string_val ['b'] },
        { key := string_val ['k'], val := { VAL_template with type_id := VAL_STRING } }]
        = pre ++ old :: post ∧
      (∀ kv ∈ pre, keys_equal no_tables kv.key (int_val 1) = false) ∧
      keys_equal no_tables old.key (int_val 1) = true ∧
      VAL_default_move_from_key_val no_tables
          (object_val { array := [{ key := { VAL_template with type_id := VAL_STRING },
                                    val := string_val ['a'] },
                                  { key := int_val 1, val := string_val ['b'] },
                                  { key := string_val ['k'],
                                    val := { VAL_template with type_id := VAL_STRING } }],
                        cap := 4 })
          (int_val 1) (string_val ['c']) =
        .ok { result := OPS_RESULT.of OPS_RESULT_OK
              vp := object_val
                { array := pre ++ { key := int_val 1, val := string_val ['c'] } :: post,
                  cap := 4 }
              deleted := [old.key, old.val] } ∧
      (pre ++ ({ key := int_val 1, val := string_val ['c'] } : OBJECT_KV VAL) :: post).length = 3 ∧
      (pre ++ ({ key := int_val 1, val := string_val ['c'] } : OBJECT_KV VAL) :: post)[pre.length]?
          = some { key := int_val 1, val := string_val ['c'] } :=
  insertPair_existing_key_replaces_in_place no_tables
    (object_val { array := [{ key := { VAL_template with type_id := VAL_STRING },
                              val := string_val ['a'] },
                            { key := int_val 1, val := string_val ['b'] },
                            { key := string_val ['k'],
                              val := { VAL_template with type_id := VAL_STRING } }],
                  cap := 4 })
    (int_val 1) (string_val ['c'])
    { array := [{ key := { VAL_template with type_id := VAL_STRING }, val := string_val ['a'] },
                { key := int_val 1, val := string_val ['b'] },
                { key := string_val ['k'], val := { VAL_template with type_id := VAL_STRING } }],
      cap := 4 }
    rfl rfl (by decide)
    ⟨[{ key := { VAL_template with type_id := VAL_STRING }, val := string_val ['a'] }],
      { key := int_val 1, val := string_val ['b'] },
      [{ key := string_val ['k'], val := { VAL_template with type_id := VAL_STRING } }],
      rfl, by decide, by decide⟩

/-- C2: on an Object whose buffer holds its slots (`len ≤ cap`), for every key that
`VAL_is_equal` reports not equal to any stored key, `insertPair` returns Ok, deletes
nothing, keeps all earlier pairs in order and stores `(key, val)` after them at the last
index, so the length grows by exactly one; the capacity changes only when the old length
equalled the old capacity, and then becomes 4 if it was 0 and twice its old value
otherwise. -/
theorem insertPair_novel_key_appends (tables : Nat → Option VAL_OPS)
    (vp key val : VAL) (o : OBJECT VAL)
    (hty : vp.type_id = VAL_OBJECT) (hdata : vp.type_data = VAL_type_data.object (some o))
    (hcap : o.len ≤ o.cap)
    (hne : ∀ kv ∈ o.array, keys_differ tables kv.key key = true) :
    VAL_default_move_from_key_val tables vp key val =
        .ok { result := OPS_RESULT.of OPS_RESULT_OK
              vp := { vp with
                type_data := VAL_type_data.object
                  (some { array := o.array ++ [{ key := key, val := val }]
                          cap := if o.len = o.cap then (if o.cap = 0 then 4 else 2 * o.cap)
                                 else o.cap }) }
              deleted := [] } ∧
      (o.array ++ [({ key := key, val := val } : OBJECT_KV VAL)]).length = o.len + 1 ∧
      (o.array ++ [({ key := key, val := val } : OBJECT_KV VAL)])[o.len]?
        = some { key := key, val := val } ∧
      ∀ j, j < o.len →
        (o.array ++ [({ key := key, val := val } : OBJECT_KV VAL)])[j]? = o.array[j]? := by
  refine ⟨move_miss tables vp key val o hty hdata hcap hne, by simp [OBJECT.len], ?_, ?_⟩
  · simp [OBJECT.len]
  · intro j hj
    simp only [OBJECT.len] at hj
    rw [List.getElem?_append_left hj]

theorem insertPair_novel_key_appends_witness :
    VAL_default_move_from_key_val no_tables
        (object_val { array := [{ key := int_val 1, val := string_val ['a'] }], cap := 1 })
        (int_val 2) (string_val ['b']) =
        .ok { result := OPS_RESULT.of OPS_RESULT_OK
              vp := object_val
                { array := [{ key := int_val 1, val := string_val ['a'] }] ++
                    [{ key := int_val 2, val := string_val ['b'] }]
                  cap := 2 }
              deleted := [] } :=
  (insertPair_novel_key_appends no_tables
    (object_val { array := [{ key := int_val 1, val := string_val ['a'] }], cap := 1 })
    (int_val 2) (string_val ['b'])
    { array := [{ key := int_val 1, val := string_val ['a'] }], cap := 1 }
    rfl rfl (by decide) (by decide)).1

/-- C3: key uniqueness is an invariant of `insertPair`.  On an Object whose stored keys and
the new key use the default operations table and in which no two distinct slots hold keys
that `VAL_is_equal` reports equal, every `insertPair` that returns leaves an Object with the
same property.  Hence every run of `insertPair` calls from an empty Object with keys that
use the default table ends, when it returns, in an Object in which no two distinct slots
hold mutually equal keys; and the run does return when each key holds the payload of its
type. -/
theorem insertPair_keeps_keys_unique (tables : Nat → Option VAL_OPS) :
    (∀ (vp key val : VAL) (o : OBJECT VAL) (out : MoveOutcome),
      vp.type_id = VAL_OBJECT → vp.type_data = VAL_type_data.object (some o) →
      (∀ kv ∈ o.array, kv.key.ops = OpsRef.template) → key.ops = OpsRef.template →
      unique_keys tables o.array →
      VAL_default_move_from_key_val tables vp key val = .ok out →
      ∃ o1 : OBJECT VAL, out.vp.type_data = VAL_type_data.object (some o1) ∧
        unique_keys tables o1.array) ∧
    (∀ (vp vp1 : VAL) (cap : Nat) (pairs : List (VAL × VAL)),
      vp.type_id = VAL_OBJECT →
      vp.type_data = VAL_type_data.object (some { array := [], cap := cap }) →
      (∀ p ∈ pairs, p.1.ops = OpsRef.template) →
      insert_all tables vp pairs = .ok vp1 →
      ∃ o1 : OBJECT VAL, vp1.type_data = VAL_type_data.object (some o1) ∧
        unique_keys tables o1.array) ∧
    (∀ (vp : VAL) (cap : Nat) (pairs : List (VAL × VAL)),
      vp.type_id = VAL_OBJECT →
      vp.type_data = VAL_type_data.object (some { array := [], cap := cap }) →
      (∀ p ∈ pairs, default_key_ok p.1 = true) →
      ∃ vp1 : VAL, insert_all tables vp pairs = .ok vp1) := by
  refine ⟨?_, ?_, ?_⟩
  · intro vp key val o out hty hdata hops hkey hu h
    rcases move_inv tables vp key val o out hty hdata h with
      ⟨cap, hd, hall⟩ | ⟨pre, old, post, hs, hd, hpre, hold⟩
    · exact ⟨_, hd, unique_keys_append tables o.array key val hu hall⟩
    · rw [hs] at hu hops
      exact ⟨_, hd, unique_keys_replace tables pre post old key val hu hops hkey hpre hold⟩
  · intro vp vp1 cap pairs hty hdata hp h
    exact insert_all_unique tables pairs vp vp1 _ hty hdata (by simp) List.Pairwise.nil hp h
  · intro vp cap pairs hty hdata hp
    have hinv : container_ok tables vp :=
      ⟨hty, _, hdata, by simp [OBJECT.len], by simp, List.Pairwise.nil⟩
    obtain ⟨vp1, h1, _⟩ := insert_all_ok tables pairs vp hinv hp
    exact ⟨vp1, h1⟩

theorem insertPair_keeps_keys_unique_witness :
    (∃ o1 : OBJECT VAL,
      (object_val { array := [{ key := int_val 1, val := string_val ['a'] },
                              { key := int_val 2, val := string_val ['c'] }], cap := 4 }).type_data
        = VAL_type_data.object (some o1) ∧ unique_keys no_tables o1.array) ∧
    (∃ o1 : OBJECT VAL,
      (object_val { array := [{ key := int_val 1, val := string_val ['c'] },
                              { key := int_val 2, val := string_val ['b'] }], cap := 4 }).type_data
        = VAL_type_data.object (some o1) ∧ unique_keys no_tables o1.array) ∧
    (∃ vp1 : VAL, insert_all no_tables (object_val OBJECT_new)
        [(int_val 1, string_val ['a']), (int_val 2, string_val ['b']),
          (int_val 1, string_val ['c'])] = .ok vp1) :=
  ⟨(insertPair_keeps_keys_unique no_tables).1
      (object_val { array := [{ key := int_val 1, val := string_val ['a'] },
                              { key := int_val 2, val := string_val ['b'] }], cap := 4 })
      (int_val 2) (string_val ['c'])
      { array := [{ key := int_val 1, val := string_val ['a'] },
                  { key := int_val 2, val := string_val ['b'] }], cap := 4 }
      { result := OPS_RESULT.of OPS_RESULT_OK
        vp := object_val { array := [{ key := int_val 1, val := string_val ['a'] },
                                     { key := int_val 2, val := string_val ['c'] }], cap := 4 }
        deleted := [int_val 2, string_val ['b']] }
      rfl rfl (by decide) rfl (by unfold unique_keys; decide) rfl,
    (insertPair_keeps_keys_unique no_tables).2.1 (object_val OBJECT_new)
      (object_val { array := [{ key := int_val 1, val := string_val ['c'] },
                              { key := int_val 2, val := string_val ['b'] }], cap := 4 })
      0 [(int_val 1, string_val ['a']), (int_val 2, string_val ['b']),
          (int_val 1, string_val ['c'])] rfl rfl (by decide) rfl,
    (insertPair_keeps_keys_unique no_tables).2.2 (object_val OBJECT_new) 0
      [(int_val 1, string_val ['a']), (int_val 2, string_val ['b']),
        (int_val 1, string_val ['c'])] rfl rfl (by decide)⟩

/-- C4: at the failing input, an Object value that holds one pair, `VAL_default_set_type`
with target `VAL_OBJECT` returns Ok and leaves the value with a fresh empty container
(`len = 0`, `cap = 0`); the stored pair is gone. -/
theorem set_type_object_on_object_resets_container :
    VAL_default_set_type
        (object_val { array := [{ key := int_val 1, val := string_val ['a'] }], cap := 4 })
        VAL_OBJECT =
      .ok (OPS_RESULT.of OPS_RESULT_OK, object_val { array := [], cap := 0 }) := by
  rfl

/-- C5: for every Value whose type is concrete and every target type different from it,
`VAL_default_set_type` returns Unimplemented and leaves the Value, its type and payload, as
it was.  Whenever `VAL_default_set_type` returns, the type is the old one, or the old type
was Undefined and the new type is the target; and the other operations, `copy_from_int32`,
`copy_from_string` and `move_from_key_val`, never change the type.  So a type changes at
most once, from Undefined. -/
theorem set_type_other_type_unimplemented :
    (∀ (vp : VAL) (target : VAL_types), vp.type_id ≠ VAL_UNDEFINED → target ≠ vp.type_id →
      VAL_default_set_type vp target = .ok (OPS_RESULT.of OPS_RESULT_UNIMPLEMENTED, vp)) ∧
    (∀ (vp vp1 : VAL) (target : VAL_types) (r : OPS_RESULT),
      VAL_default_set_type vp target = .ok (r, vp1) →
      vp1.type_id = vp.type_id ∨ (vp.type_id = VAL_UNDEFINED ∧ vp1.type_id = target)) ∧
    (∀ (vp vp1 : VAL) (n : Int) (r : OPS_RESULT),
      VAL_default_copy_from_int32 vp n = .ok (r, vp1) → vp1.type_id = vp.type_id) ∧
    (∀ (vp vp1 : VAL) (s : List Char) (r : OPS_RESULT),
      VAL_default_copy_from_string vp s = .ok (r, vp1) → vp1.type_id = vp.type_id) ∧
    (∀ (tables : Nat → Option VAL_OPS) (vp key val : VAL) (out : MoveOutcome),
      VAL_default_move_from_key_val tables vp key val = .ok out →
      out.vp.type_id = vp.type_id) := by
  refine ⟨?_, set_type_keeps_or_sets, copy_from_int32_keeps_type, copy_from_string_keeps_type,
    move_from_key_val_keeps_type⟩
  intro vp target h1 h2
  have h3 : ¬ vp.type_id = target := fun h => h2 h.symm
  simp [VAL_default_set_type, h1, h3]

theorem set_type_other_type_unimplemented_witness :
    VAL_default_set_type (int_val 7) VAL_STRING
        = .ok (OPS_RESULT.of OPS_RESULT_UNIMPLEMENTED, int_val 7) ∧
      (({ VAL_template with type_id := VAL_STRING } : VAL).type_id = VAL_new.type_id ∨
        (VAL_new.type_id = VAL_UNDEFINED ∧
          ({ VAL_template with type_id := VAL_STRING } : VAL).type_id = VAL_STRING)) ∧
      (int_val 9).type_id = (int_val 7).type_id ∧
      (int_val 42).type_id = (int_val 7).type_id ∧
      (object_val { array := [{ key := int_val 1, val := string_val ['a'] }],
                    cap := 4 }).type_id = (object_val OBJECT_new).type_id :=
  ⟨set_type_other_type_unimplemented.1 (int_val 7) VAL_STRING (by decide) (by decide),
    set_type_other_type_unimplemented.2.1 VAL_new
      { VAL_template with type_id := VAL_STRING } VAL_STRING (OPS_RESULT.of OPS_RESULT_OK) rfl,
    set_type_other_type_unimplemented.2.2.1 (int_val 7) (int_val 9) 9
      (OPS_RESULT.of OPS_RESULT_OK) rfl,
    set_type_other_type_unimplemented.2.2.2.1 (int_val 7) (int_val 42) ['4', '2']
      (OPS_RESULT.of OPS_RESULT_OK) rfl,
    set_type_other_type_unimplemented.2.2.2.2 no_tables (object_val OBJECT_new) (int_val 1)
      (string_val ['a'])
      { result := OPS_RESULT.of OPS_RESULT_OK
        vp := object_val { array := [{ key := int_val 1, val := string_val ['a'] }], cap := 4 }
        deleted := [] } rfl⟩

/-- C6 (as stated, refuted): on the text `42 x` the parse stops after `42`, the text left
over is ` x`, which contains the non-whitespace character `x`, and yet the operation
returns Ok and stores 42. -/
theorem copy_from_string_accepts_text_after_space :
    (strtol ['4', '2', ' ', 'x']).endptr = [' ', 'x'] ∧
      VAL_default_copy_from_string (int_val 0) ['4', '2', ' ', 'x'] =
        .ok (OPS_RESULT.of OPS_RESULT_OK, int_val 42) := by
  constructor <;> rfl

/-- C6 (amended): on an Int32 value, for every text made of leading white space, an
optionally signed integer literal and a rest whose first character is not white space (and
does not continue the literal), `VAL_default_copy_from_string` returns InvalidInteger and
leaves the value as it was. -/
theorem copy_from_string_rejects_char_after_integer (vp : VAL) (ws : List Char)
    (sgn : Option Bool) (lit : List Char) (c : Char) (t : List Char) (base mag : Nat)
    (hty : vp.type_id = VAL_INT32) (hws : ∀ w ∈ ws, isspace w = true)
    (hlit : int_literal lit base mag) (hend : literal_ends base lit (c :: t) = true)
    (hc : isspace c = false) :
    VAL_default_copy_from_string vp (ws ++ sign_chars sgn ++ lit ++ c :: t) =
      .ok (OPS_RESULT.of OPS_RESULT_INVALID_INTEGER, vp) := by
  rw [copy_from_string_literal vp ws sgn lit (c :: t) base mag hty hws hlit hend]
  simp [at_end_or_space, hc]

theorem copy_from_string_rejects_char_after_integer_witness :
    VAL_default_copy_from_string (int_val 7) ['4', '2', 'x'] =
      .ok (OPS_RESULT.of OPS_RESULT_INVALID_INTEGER, int_val 7) :=
  copy_from_string_rejects_char_after_integer (int_val 7) [] none ['4', '2'] 'x' [] 10
    (digits_value 10 ['4', '2']) rfl (by simp)
    (int_literal.decimal '4' ['2'] (by decide) (by decide) (by decide)) (by decide) (by decide)

/-- C7: at the failing inputs, the empty text and a text of one space, from which no
integer can be parsed, `VAL_default_copy_from_string` on an Int32 value holding 5 returns
Ok and overwrites the stored integer with 0. -/
theorem copy_from_string_accepts_empty_text :
    VAL_default_copy_from_string (int_val 5) [] =
        .ok (OPS_RESULT.of OPS_RESULT_OK, int_val 0) ∧
      VAL_default_copy_from_string (int_val 5) [' '] =
        .ok (OPS_RESULT.of OPS_RESULT_OK, int_val 0) := by
  constructor <;> rfl

/-- C8: on an Int32 value, for every text made of leading white space, an optionally signed
integer literal whose value lies outside `[-2147483648, 2147483647]` (however large) and any
rest, `VAL_default_copy_from_string` returns InvalidInteger and leaves the value as it was;
the boundary literals `2147483647` and `-2147483648` are accepted with exactly those
values. -/
theorem copy_from_string_enforces_int32_range :
    (∀ (vp : VAL) (ws : List Char) (sgn : Option Bool) (lit trail : List Char) (base mag : Nat),
      vp.type_id = VAL_INT32 → (∀ w ∈ ws, isspace w = true) → int_literal lit base mag →
      literal_ends base lit trail = true →
      ¬ (INT_MIN ≤ signed_value sgn mag ∧ signed_value sgn mag ≤ INT_MAX) →
      VAL_default_copy_from_string vp (ws ++ sign_chars sgn ++ lit ++ trail) =
        .ok (OPS_RESULT.of OPS_RESULT_INVALID_INTEGER, vp)) ∧
    VAL_default_copy_from_string (int_val 0) ['2', '1', '4', '7', '4', '8', '3', '6', '4', '7'] =
      .ok (OPS_RESULT.of OPS_RESULT_OK, int_val 2147483647) ∧
    VAL_default_copy_from_string (int_val 0)
        ['-', '2', '1', '4', '7', '4', '8', '3', '6', '4', '8'] =
      .ok (OPS_RESULT.of OPS_RESULT_OK, int_val (-2147483648)) := by
  refine ⟨?_, rfl, rfl⟩
  intro vp ws sgn lit trail base mag hty hws hlit hend hrange
  rw [copy_from_string_literal vp ws sgn lit trail base mag hty hws hlit hend]
  rw [if_neg]
  intro h
  exact hrange h.2

theorem copy_from_string_enforces_int32_range_witness :
    VAL_default_copy_from_string (int_val 7) ['2', '1', '4', '7', '4', '8', '3', '6', '4', '8'] =
      .ok (OPS_RESULT.of OPS_RESULT_INVALID_INTEGER, int_val 7) :=
  copy_from_string_enforces_int32_range.1 (int_val 7) [] none
    ['2', '1', '4', '7', '4', '8', '3', '6', '4', '8'] [] 10
    (digits_value 10 ['2', '1', '4', '7', '4', '8', '3', '6', '4', '8']) rfl (by simp)
    (int_literal.decimal '2' ['1', '4', '7', '4', '8', '3', '6', '4', '8']
      (by decide) (by decide) (by decide))
    (by decide) (by decide)

/-- C9: on an Int32 value, for every text made of leading white space, an optionally signed
integer literal (decimal, `0x`/`0X` hexadecimal, or `0`-prefixed octal) whose value `n` fits
a 32-bit signed integer, and trailing white space, `VAL_default_copy_from_string` returns Ok
and the stored integer is exactly `n`; `42` and `  42  ` both store 42. -/
theorem copy_from_string_parses_literal :
    (∀ (vp : VAL) (ws : List Char) (sgn : Option Bool) (lit trail : List Char) (base mag : Nat),
      vp.type_id = VAL_INT32 → (∀ w ∈ ws, isspace w = true) → int_literal lit base mag →
      (∀ w ∈ trail, isspace w = true) →
      INT_MIN ≤ signed_value sgn mag → signed_value sgn mag ≤ INT_MAX →
      VAL_default_copy_from_string vp (ws ++ sign_chars sgn ++ lit ++ trail) =
        .ok (OPS_RESULT.of OPS_RESULT_OK,
          { vp with type_data := VAL_type_data.int32 (signed_value sgn mag) })) ∧
    VAL_default_copy_from_string (int_val 0) ['4', '2'] =
      .ok (OPS_RESULT.of OPS_RESULT_OK, int_val 42) ∧
    VAL_default_copy_from_string (int_val 0) [' ', ' ', '4', '2', ' ', ' '] =
      .ok (OPS_RESULT.of OPS_RESULT_OK, int_val 42) := by
  refine ⟨?_, rfl, rfl⟩
  intro vp ws sgn lit trail base mag hty hws hlit htrail hlo hhi
  rw [copy_from_string_literal vp ws sgn lit trail base mag hty hws hlit
    (literal_ends_of_spaces base lit trail htrail)]
  rw [if_pos ⟨at_end_or_space_of_spaces trail htrail, hlo, hhi⟩]

theorem copy_from_string_parses_literal_witness :
    VAL_default_copy_from_string (int_val 0) ['\t', '-', '0', 'x', '1', 'F', '\n'] =
      .ok (OPS_RESULT.of OPS_RESULT_OK, int_val (-31)) :=
  copy_from_string_parses_literal.1 (int_val 0) ['\t'] (some true) ['0', 'x', '1', 'F'] ['\n']
    16 (digits_value 16 ['1', 'F']) rfl (by decide)
    (int_literal.hex 'x' '1' ['F'] (Or.inl rfl) (by decide)) (by decide)
    (by decide) (by decide)

/-- C10: `VAL_default_is_equal` is type-strict.  It returns Unimplemented when the types
differ; for two Int32 values it returns Ok when the integers are equal and False otherwise;
for two String values that hold a buffer it returns Ok when the texts are identical and
False otherwise; for two Object values and for two Undefined values it returns
Unimplemented. -/
theorem VAL_default_is_equal_type_strict :
    (∀ a b : VAL, a.type_id ≠ b.type_id →
      VAL_default_is_equal a b = .ok (OPS_RESULT.of OPS_RESULT_UNIMPLEMENTED)) ∧
    (∀ (a b : VAL) (x y : Int), a.type_id = VAL_INT32 → b.type_id = VAL_INT32 →
      a.type_data.read_int32 = some x → b.type_data.read_int32 = some y →
      VAL_default_is_equal a b =
        .ok (OPS_RESULT.of (if x = y then OPS_RESULT_OK else OPS_RESULT_FALSE))) ∧
    (∀ (a b : VAL) (s t : List Char), a.type_id = VAL_STRING → b.type_id = VAL_STRING →
      a.type_data = VAL_type_data.string (some s) → b.type_data = VAL_type_data.string (some t) →
      VAL_default_is_equal a b =
        .ok (OPS_RESULT.of (if s = t then OPS_RESULT_OK else OPS_RESULT_FALSE))) ∧
    (∀ a b : VAL, a.type_id = VAL_OBJECT → b.type_id = VAL_OBJECT →
      VAL_default_is_equal a b = .ok (OPS_RESULT.of OPS_RESULT_UNIMPLEMENTED)) ∧
    (∀ a b : VAL, a.type_id = VAL_UNDEFINED → b.type_id = VAL_UNDEFINED →
      VAL_default_is_equal a b = .ok (OPS_RESULT.of OPS_RESULT_UNIMPLEMENTED)) := by
  refine ⟨?_, ?_, ?_, ?_, ?_⟩
  · intro a b h
    simp [VAL_default_is_equal, h]
  · intro a b x y ha hb hx hy
    by_cases hxy : x = y <;> simp [VAL_default_is_equal, ha, hb, hx, hy, hxy]
  · intro a b s t ha hb hs ht
    by_cases hst : s = t <;>
      simp [VAL_default_is_equal, ha, hb, hs, ht, hst, VAL_type_data.read_string,
        strcmp_eq_zero_iff]
  · intro a b ha hb
    simp [VAL_default_is_equal, ha, hb]
  · intro a b ha hb
    simp [VAL_default_is_equal, ha, hb]

theorem VAL_default_is_equal_type_strict_witness :
    VAL_default_is_equal (int_val 1) (string_val ['1'])
        = .ok (OPS_RESULT.of OPS_RESULT_UNIMPLEMENTED) ∧
      VAL_default_is_equal (int_val 3) (int_val 4)
        = .ok (OPS_RESULT.of (if (3 : Int) = 4 then OPS_RESULT_OK else OPS_RESULT_FALSE)) ∧
      VAL_default_is_equal (string_val ['a', 'b']) (string_val ['a', 'b'])
        = .ok (OPS_RESULT.of (if ['a', 'b'] = ['a', 'b'] then OPS_RESULT_OK
            else OPS_RESULT_FALSE)) ∧
      VAL_default_is_equal (object_val OBJECT_new) (object_val OBJECT_new)
        = .ok (OPS_RESULT.of OPS_RESULT_UNIMPLEMENTED) ∧
      VAL_default_is_equal VAL_new VAL_new = .ok (OPS_RESULT.of OPS_RESULT_UNIMPLEMENTED) :=
  ⟨VAL_default_is_equal_type_strict.1 _ _ (by decide),
    VAL_default_is_equal_type_strict.2.1 _ _ 3 4 rfl rfl rfl rfl,
    VAL_default_is_equal_type_strict.2.2.1 _ _ ['a', 'b'] ['a', 'b'] rfl rfl rfl rfl,
    VAL_default_is_equal_type_strict.2.2.2.1 _ _ rfl rfl,
    VAL_default_is_equal_type_strict.2.2.2.2 _ _ rfl rfl⟩

/-- C11: for every pair of Values with arbitrary operations tables, `VAL_is_equal(a, b)`
reports Ok exactly when the `is_equal` of the table of `a` applied to `(a, b)` returns Ok
and the `is_equal` of the table of `b` applied to `(b, a)` returns Ok; whenever it returns
anything else, that is False. -/
theorem VAL_is_equal_requires_both_directions (tables : Nat → Option VAL_OPS) (a b : VAL) :
    (VAL_is_equal tables a b = .ok (OPS_RESULT.of OPS_RESULT_OK) ↔
      ∃ (ta tb : VAL_OPS) (r1 r2 : OPS_RESULT),
        ops_table tables a.ops = some ta ∧ ops_table tables b.ops = some tb ∧
        ta.is_equal a b = .ok r1 ∧ result_ok r1 = true ∧
        tb.is_equal b a = .ok r2 ∧ result_ok r2 = true) ∧
    (∀ r, VAL_is_equal tables a b = .ok r →
      r = OPS_RESULT.of OPS_RESULT_OK ∨ r = OPS_RESULT.of OPS_RESULT_FALSE) := by
  refine ⟨⟨?_, ?_⟩, ?_⟩
  · intro h
    unfold VAL_is_equal at h
    rw [ops_is_equal_eq_table, ops_is_equal_eq_table] at h
    cases hta : ops_table tables a.ops with
    | none => rw [hta] at h; cases h
    | some ta =>
      rw [hta] at h
      simp only [Option.map_some'] at h
      cases h1 : ta.is_equal a b with
      | error e => rw [h1] at h; cases h
      | ok r1 =>
        rw [h1] at h
        simp only at h
        cases hr1 : result_ok r1 with
        | false => rw [hr1] at h; simp [OPS_RESULT.of] at h
        | true =>
          rw [hr1] at h
          simp only [if_true] at h
          cases htb : ops_table tables b.ops with
          | none => rw [htb] at h; cases h
          | some tb =>
            rw [htb] at h
            simp only [Option.map_some'] at h
            cases h2 : tb.is_equal b a with
            | error e => rw [h2] at h; cases h
            | ok r2 =>
              rw [h2] at h
              simp only at h
              cases hr2 : result_ok r2 with
              | false => rw [hr2] at h; simp [OPS_RESULT.of] at h
              | true => exact ⟨ta, tb, r1, r2, rfl, rfl, h1, hr1, h2, hr2⟩
  · rintro ⟨ta, tb, r1, r2, hta, htb, h1, hr1, h2, hr2⟩
    unfold VAL_is_equal
    rw [ops_is_equal_eq_table, ops_is_equal_eq_table, hta, htb]
    simp only [Option.map_some', h1, hr1, h2, hr2, if_true]
  · intro r h
    unfold VAL_is_equal at h
    split at h
    · cases h
    · split at h
      · cases h
      · split at h
        · split at h
          · cases h
          · split at h
            · cases h
            · split at h
              · left; cases h; rfl
              · right; cases h; rfl
        · right; cases h; rfl

theorem VAL_is_equal_requires_both_directions_witness :
    VAL_is_equal always_equal_tables { int_val 1 with ops := OpsRef.custom 0 }
        { string_val ['x'] with ops := OpsRef.custom 0 } = .ok (OPS_RESULT.of OPS_RESULT_OK) ∧
      (OPS_RESULT.of OPS_RESULT_FALSE = OPS_RESULT.of OPS_RESULT_OK ∨
        OPS_RESULT.of OPS_RESULT_FALSE = OPS_RESULT.of OPS_RESULT_FALSE) :=
  ⟨(VAL_is_equal_requires_both_directions always_equal_tables
      { int_val 1 with ops := OpsRef.custom 0 }
      { string_val ['x'] with ops := OpsRef.custom 0 }).1.2
      ⟨{ VAL_OPS_template no_tables with is_equal := fun _ _ => .ok (OPS_RESULT.of .OPS_RESULT_OK) },
        { VAL_OPS_template no_tables with is_equal := fun _ _ => .ok (OPS_RESULT.of .OPS_RESULT_OK) },
        OPS_RESULT.of OPS_RESULT_OK, OPS_RESULT.of OPS_RESULT_OK, rfl, rfl, rfl, rfl, rfl, rfl⟩,
    (VAL_is_equal_requires_both_directions always_equal_tables
      { int_val 1 with ops := OpsRef.custom 0 } (int_val 2)).2
      (OPS_RESULT.of OPS_RESULT_FALSE) rfl⟩

/-- C12 (as stated, refuted): the Int32 value 42 and the String value holding the decimal
text of 42 compare False under `VAL_is_equal`, in both orders, not Unimplemented. -/
theorem VAL_is_equal_int32_string_false :
    VAL_is_equal no_tables (int_val 42) (string_val (format_d 42)) =
        .ok (OPS_RESULT.of OPS_RESULT_FALSE) ∧
      VAL_is_equal no_tables (string_val (format_d 42)) (int_val 42) =
        .ok (OPS_RESULT.of OPS_RESULT_FALSE) ∧
      OPS_RESULT_FALSE ≠ OPS_RESULT_UNIMPLEMENTED := by
  refine ⟨rfl, rfl, by decide⟩

/-- C12 (amended): for every Int32 Value and every String Value on the default table, the
per-value comparison `VAL_default_is_equal` reports Unimplemented in either order, and the
symmetric `VAL_is_equal` reports False in either order. -/
theorem VAL_is_equal_int32_string (tables : Nat → Option VAL_OPS) (a b : VAL)
    (ha : a.type_id = VAL_INT32) (hb : b.type_id = VAL_STRING)
    (hoa : a.ops = OpsRef.template) (hob : b.ops = OpsRef.template) :
    VAL_default_is_equal a b = .ok (OPS_RESULT.of OPS_RESULT_UNIMPLEMENTED) ∧
      VAL_default_is_equal b a = .ok (OPS_RESULT.of OPS_RESULT_UNIMPLEMENTED) ∧
      VAL_is_equal tables a b = .ok (OPS_RESULT.of OPS_RESULT_FALSE) ∧
      VAL_is_equal tables b a = .ok (OPS_RESULT.of OPS_RESULT_FALSE) := by
  have h1 : VAL_default_is_equal a b = .ok (OPS_RESULT.of OPS_RESULT_UNIMPLEMENTED) := by
    simp [VAL_default_is_equal, ha, hb]
  have h2 : VAL_default_is_equal b a = .ok (OPS_RESULT.of OPS_RESULT_UNIMPLEMENTED) := by
    simp [VAL_default_is_equal, ha, hb]
  refine ⟨h1, h2, ?_, ?_⟩
  · rw [VAL_is_equal_template tables a b hoa hob, h1, h2]
    rfl
  · rw [VAL_is_equal_template tables b a hob hoa, h1, h2]
    rfl

theorem VAL_is_equal_int32_string_witness :
    VAL_default_is_equal (int_val 7) (string_val ['7'])
        = .ok (OPS_RESULT.of OPS_RESULT_UNIMPLEMENTED) ∧
      VAL_default_is_equal (string_val ['7']) (int_val 7)
        = .ok (OPS_RESULT.of OPS_RESULT_UNIMPLEMENTED) ∧
      VAL_is_equal no_tables (int_val 7) (string_val ['7'])
        = .ok (OPS_RESULT.of OPS_RESULT_FALSE) ∧
      VAL_is_equal no_tables (string_val ['7']) (int_val 7)
        = .ok (OPS_RESULT.of OPS_RESULT_FALSE) :=
  VAL_is_equal_int32_string no_tables (int_val 7) (string_val ['7']) rfl rfl rfl rfl

/-- C13: for every argument list, taken in consecutive pairs `(k, v)` with a trailing
unpaired argument ignored, in which every key `k` is accepted by `copy_from_string` on an
Int32 value (and every `v` has fewer than `2^31 - 1` characters, so that `r + 1` in the
copy is an `int`), `main` returns 0 and prints `{`, the pairs joined by `, `, `}` and a
newline, where a pair is the decimal text of the parsed key, `: ` and the value between
double quotes, the pairs being the distinct parsed keys in order of first occurrence, each
with the value of its last occurrence; with fewer than two arguments the output is `{}` and
a newline. -/
theorem main_prints_pairs :
    (∀ (args : List (List Char)) (kvs : List (Int × List Char)),
      parsed_pairs args = some kvs → (∀ p ∈ kvs, p.2.length < 2147483647) →
      main args = (render_pairs (expected_pairs kvs) ++ ['\n'], .ok 0)) ∧
    (∀ args : List (List Char), args.length < 2 →
      main args = (['\x7b', '\x7d', '\n'], .ok 0)) := by
  refine ⟨main_ok, ?_⟩
  intro args hlen
  have hp : parsed_pairs args = some [] := by
    match args, hlen with
    | [], _ => rfl
    | [_], _ => rfl
    | _ :: _ :: rest, h => simp only [List.length_cons] at h; omega
  rw [main_ok args [] hp (by simp)]
  rfl

theorem main_prints_pairs_witness :
    main [['1'], ['a'], ['0', 'x', '1', '0'], ['b'], [' ', '1', ' '], ['c', 'd'], ['z']] =
        (['\x7b', '1', ':', ' ', '\x22', 'c', 'd', '\x22', ',', ' ', '1', '6', ':', ' ', '\x22',
          'b', '\x22', '\x7d', '\n'], .ok 0) ∧
      main [['4', '2']] = (['\x7b', '\x7d', '\n'], .ok 0) :=
  ⟨main_prints_pairs.1
      [['1'], ['a'], ['0', 'x', '1', '0'], ['b'], [' ', '1', ' '], ['c', 'd'], ['z']]
      [(1, ['a']), (16, ['b']), (1, ['c', 'd'])] rfl (by decide),
    main_prints_pairs.2 [['4', '2']] (by decide)⟩

/-- C14 (as stated, refuted): on the pairs `("a","1")`, `("b","2")` the driver does not
complete: the key `a` is refused as an Int32, and the run ends by `abort` after printing
`{error: "invalid integer"}` and a newline. -/
theorem main_aborts_on_text_keys :
    (main [['a'], ['1'], ['b'], ['2']]).2 = .error Fault.abort ∧
      (main [['a'], ['1'], ['b'], ['2']]).1 =
        ['\x7b', 'e', 'r', 'r', 'o', 'r', ':', ' ', '\x22', 'i', 'n', 'v', 'a', 'l', 'i', 'd',
          ' ', 'i', 'n', 't', 'e', 'g', 'e', 'r', '\x22', '\x7d', '\n'] := by
  constructor <;> rfl

/-- C14 (amended): the driver types every key as Int32.  On the pairs `("1","a")`,
`("2","b")` it completes with status 0 and prints `{1: "a", 2: "b"}` and a newline; on the
pairs `("a","1")`, `("b","2")` it prints `{error: "invalid integer"}` and a newline and ends
by `abort`. -/
theorem main_end_to_end :
    main [['1'], ['a'], ['2'], ['b']] =
        (['\x7b', '1', ':', ' ', '\x22', 'a', '\x22', ',', ' ', '2', ':', ' ', '\x22', 'b',
          '\x22', '\x7d', '\n'], .ok 0) ∧
      main [['a'], ['1'], ['b'], ['2']] =
        (['\x7b', 'e', 'r', 'r', 'o', 'r', ':', ' ', '\x22', 'i', 'n', 'v', 'a', 'l', 'i', 'd',
          ' ', 'i', 'n', 't', 'e', 'g', 'e', 'r', '\x22', '\x7d', '\n'], .error Fault.abort) := by
  constructor <;> rfl

/-- C15: `VAL_default_copy_from_int32`, for every integer `n`: on an Int32 value it returns
Ok and stores `n`; on a String value (with no buffer or any previous buffer) and `n` a
32-bit signed integer it returns Ok and the payload becomes the base-10 text of `n`, a `-`
for a negative number and then the decimal numeral without padding, which with its
terminator takes at most 12 of the 21 bytes of the buffer; on an Undefined or Object value
it returns InvalidType and changes nothing. -/
theorem copy_from_int32_spec :
    (∀ (vp : VAL) (n : Int), vp.type_id = VAL_INT32 →
      VAL_default_copy_from_int32 vp n =
        .ok (OPS_RESULT.of OPS_RESULT_OK, { vp with type_data := VAL_type_data.int32 n })) ∧
    (∀ (vp : VAL) (n : Int) (p : Option (List Char)), INT_MIN ≤ n → n ≤ INT_MAX →
      vp.type_id = VAL_STRING → vp.type_data.read_string = some p →
      ∃ text : List Char,
        VAL_default_copy_from_int32 vp n =
          .ok (OPS_RESULT.of OPS_RESULT_OK,
            { vp with type_data := VAL_type_data.string (some text) }) ∧
        decimal_text n text ∧ text.length + 1 ≤ 12 ∧ 12 ≤ MAX_INTSTRING_LEN) ∧
    (∀ (vp : VAL) (n : Int), vp.type_id = VAL_UNDEFINED ∨ vp.type_id = VAL_OBJECT →
      VAL_default_copy_from_int32 vp n = .ok (OPS_RESULT.of OPS_RESULT_INVALID_TYPE, vp)) := by
  refine ⟨?_, ?_, ?_⟩
  · intro vp n hty
    simp [VAL_default_copy_from_int32, hty]
  · intro vp n p hlo hhi hty hp
    refine ⟨format_d n, copy_from_int32_string vp n p hlo hhi hty hp, format_d_decimal_text n,
      ?_, by decide⟩
    have := format_d_length n hlo hhi
    omega
  · intro vp n hty
    rcases hty with h | h <;> simp [VAL_default_copy_from_int32, h]

theorem copy_from_int32_spec_witness :
    VAL_default_copy_from_int32 (int_val 0) (-5) =
        .ok (OPS_RESULT.of OPS_RESULT_OK,
          { int_val 0 with type_data := VAL_type_data.int32 (-5) }) ∧
      (∃ text : List Char,
        VAL_default_copy_from_int32 (string_val ['o', 'l', 'd']) (-2147483648) =
          .ok (OPS_RESULT.of OPS_RESULT_OK,
            { string_val ['o', 'l', 'd'] with type_data := VAL_type_data.string (some text) }) ∧
        decimal_text (-2147483648) text ∧ text.length + 1 ≤ 12 ∧ 12 ≤ MAX_INTSTRING_LEN) ∧
      VAL_default_copy_from_int32 (object_val OBJECT_new) 3 =
        .ok (OPS_RESULT.of OPS_RESULT_INVALID_TYPE, object_val OBJECT_new) :=
  ⟨copy_from_int32_spec.1 (int_val 0) (-5) rfl,
    copy_from_int32_spec.2.1 (string_val ['o', 'l', 'd']) (-2147483648) (some ['o', 'l', 'd'])
      (by decide) (by decide) rfl rfl,
    copy_from_int32_spec.2.2 (object_val OBJECT_new) 3 (Or.inr rfl)⟩

/-- C16 (as stated, refuted): on a result with error False that carries the Int32 value 7,
`result_unwrap` prints the error name only; the text `7` of the payload is not printed. -/
theorem result_unwrap_omits_payload :
    result_unwrap no_tables { val := some (int_val 7), error := OPS_RESULT_FALSE } =
      (['\x7b', 'e', 'r', 'r', 'o', 'r', ':', ' ', '\x22', 'f', 'a', 'l', 's', 'e', '\x22',
        '\x7d', '\n'], .error Fault.abort) ∧
    VAL_default_debug_print no_tables (int_val 7) = .ok (OPS_RESULT.of OPS_RESULT_OK, ['7']) := by
  constructor <;> rfl

/-- C16 (amended): for every result whose error is Ok, `result_unwrap` returns the value
reference and prints nothing; for every result whose error is not Ok, with or without a
payload, it prints `{error: "` followed by the error name, `"}` and a newline, and ends the
process by `abort`. -/
theorem result_unwrap_spec (tables : Nat → Option VAL_OPS) :
    (∀ res : OPS_RESULT, res.error = OPS_RESULT_OK →
      result_unwrap tables res = ([], .ok res.val)) ∧
    (∀ res : OPS_RESULT, res.error ≠ OPS_RESULT_OK →
      result_unwrap tables res =
        (['\x7b', 'e', 'r', 'r', 'o', 'r', ':', ' ', '\x22'] ++ result_error_str res.error ++
          ['\x22', '\x7d', '\n'], .error Fault.abort)) := by
  constructor
  · intro res h
    simp [result_unwrap, h]
  · intro res h
    have hok : result_ok res = false := by simp [result_ok, h]
    simp [result_unwrap, result_print, h, hok]

theorem result_unwrap_spec_witness :
    result_unwrap no_tables { val := some (int_val 7), error := OPS_RESULT_OK }
        = ([], .ok (some (int_val 7))) ∧
      result_unwrap no_tables { val := some (int_val 7), error := OPS_RESULT_INVALID_TYPE } =
        (['\x7b', 'e', 'r', 'r', 'o', 'r', ':', ' ', '\x22'] ++
          result_error_str OPS_RESULT_INVALID_TYPE ++ ['\x22', '\x7d', '\n'],
          .error Fault.abort) :=
  ⟨(result_unwrap_spec no_tables).1 { val := some (int_val 7), error := OPS_RESULT_OK } rfl,
    (result_unwrap_spec no_tables).2
      { val := some (int_val 7), error := OPS_RESULT_INVALID_TYPE } (by decide)⟩

/-- C17 (as stated, refuted): the String value that `set_type` makes from a fresh value is
reachable and holds no buffer; comparing it and rendering it read the null pointer. -/
theorem reachable_string_without_buffer :
    reachable no_tables { VAL_template with type_id := VAL_STRING } ∧
      ({ VAL_template with type_id := VAL_STRING } : VAL).type_data.read_string = some none ∧
      VAL_default_is_equal { VAL_template with type_id := VAL_STRING }
        { VAL_template with type_id := VAL_STRING } = .error Fault.undefined ∧
      VAL_default_debug_print no_tables { VAL_template with type_id := VAL_STRING }
        = .error Fault.undefined :=
  ⟨reachable.set_type VAL_new _ VAL_STRING (OPS_RESULT.of OPS_RESULT_OK) reachable.fresh rfl,
    rfl, rfl, rfl⟩

/-- C17 (amended): every Value built from a fresh one by `set_type`, `copy_from_int32`,
`copy_from_string` and `move_from_key_val` calls has a payload that agrees with its type in
this sense: Undefined holds the zero payload of creation, Int32 holds an integer (at first
that zero), String holds no buffer yet or a present buffer, Object holds a present
container; and so do the keys and values stored in its container, which are built the same
way. -/
theorem reachable_payload_agrees_with_type (tables : Nat → Option VAL_OPS) (v : VAL)
    (h : reachable tables v) :
    type_agrees v ∧
      ∀ o : OBJECT VAL, v.type_data = VAL_type_data.object (some o) →
        ∀ kv ∈ o.array, (reachable tables kv.key ∧ type_agrees kv.key) ∧
          (reachable tables kv.val ∧ type_agrees kv.val) := by
  refine ⟨reachable_type_agrees tables v h, ?_⟩
  intro o ho kv hkv
  obtain ⟨hk, hv⟩ := reachable_children tables v h o ho kv hkv
  exact ⟨⟨hk, reachable_type_agrees tables _ hk⟩, ⟨hv, reachable_type_agrees tables _ hv⟩⟩

theorem reachable_payload_agrees_with_type_witness :
    type_agrees (int_val 42) ∧
      ∀ o : OBJECT VAL, (int_val 42).type_data = VAL_type_data.object (some o) →
        ∀ kv ∈ o.array, (reachable no_tables kv.key ∧ type_agrees kv.key) ∧
          (reachable no_tables kv.val ∧ type_agrees kv.val) :=
  reachable_payload_agrees_with_type no_tables (int_val 42)
    (reachable.copy_from_string { VAL_template with type_id := VAL_INT32 } (int_val 42)
      ['4', '2'] (OPS_RESULT.of OPS_RESULT_OK)
      (reachable.set_type VAL_new _ VAL_INT32 (OPS_RESULT.of OPS_RESULT_OK) reachable.fresh rfl)
      rfl)

/-- C18: for every Value whose type is not Object (Undefined, Int32 or String) and every
key and val, `insertPair` returns InvalidType, leaves the container Value as it was and
calls `VAL_delete` on nothing. -/
theorem insertPair_invalid_type (tables : Nat → Option VAL_OPS) (vp key val : VAL)
    (hty : vp.type_id ≠ VAL_OBJECT) :
    VAL_default_move_from_key_val tables vp key val =
      .ok { result := OPS_RESULT.of OPS_RESULT_INVALID_TYPE, vp := vp, deleted := [] } := by
  simp [VAL_default_move_from_key_val, hty]

theorem insertPair_invalid_type_witness :
    VAL_default_move_from_key_val no_tables (string_val ['s']) (int_val 1) (string_val ['a']) =
      .ok { result := OPS_RESULT.of OPS_RESULT_INVALID_TYPE, vp := string_val ['s'],
            deleted := [] } :=
  insertPair_invalid_type no_tables (string_val ['s']) (int_val 1) (string_val ['a'])
    (by decide)

/-- C19: for every 32-bit signed integer `n`, `copy_from_int32` on a String value returns Ok
and leaves the text of `n` as payload, and `copy_from_string` with that text on an Int32
value returns Ok and stores exactly `n`. -/
theorem format_then_parse_round_trip (sv iv : VAL) (n : Int) (p : Option (List Char))
    (hlo : INT_MIN ≤ n) (hhi : n ≤ INT_MAX) (hs : sv.type_id = VAL_STRING)
    (hp : sv.type_data.read_string = some p) (hi : iv.type_id = VAL_INT32) :
    ∃ text : List Char,
      VAL_default_copy_from_int32 sv n =
        .ok (OPS_RESULT.of OPS_RESULT_OK,
          { sv with type_data := VAL_type_data.string (some text) }) ∧
      VAL_default_copy_from_string iv text =
        .ok (OPS_RESULT.of OPS_RESULT_OK, { iv with type_data := VAL_type_data.int32 n }) :=
  ⟨format_d n, copy_from_int32_string sv n p hlo hhi hs hp,
    copy_from_string_format_d iv n hlo hhi hi⟩

theorem format_then_parse_round_trip_witness :
    ∃ text : List Char,
      VAL_default_copy_from_int32 { VAL_template with type_id := VAL_STRING } (-2147483648) =
        .ok (OPS_RESULT.of OPS_RESULT_OK,
          { ({ VAL_template with type_id := VAL_STRING } : VAL) with
            type_data := VAL_type_data.string (some text) }) ∧
      VAL_default_copy_from_string (int_val 7) text =
        .ok (OPS_RESULT.of OPS_RESULT_OK,
          { int_val 7 with type_data := VAL_type_data.int32 (-2147483648) }) :=
  format_then_parse_round_trip { VAL_template with type_id := VAL_STRING } (int_val 7)
    (-2147483648) none (by decide) (by decide) rfl rfl rfl

/-- C20: every Object built from a fresh one (`OBJECT_new`, `len = 0`, `cap = 0`) by a run
of `insertPair` calls has `len ≤ cap` and a capacity that is 0 or `4 * 2^k`.  On such an
Object the index `i` at which the search loop of `insertPair` stops is below the capacity
in force when slot `i` is written (the grown capacity for an append), and `insertPair`
returns whenever the comparisons of its search return: no slot outside the buffer is read
or written. -/
theorem container_bounds_invariant (tables : Nat → Option VAL_OPS) :
    (∀ (vp vp1 : VAL) (pairs : List (VAL × VAL)),
      vp.type_id = VAL_OBJECT → vp.type_data = VAL_type_data.object (some OBJECT_new) →
      insert_all tables vp pairs = .ok vp1 →
      ∃ o1 : OBJECT VAL, vp1.type_data = VAL_type_data.object (some o1) ∧
        o1.len ≤ o1.cap ∧ (o1.cap = 0 ∨ ∃ k : Nat, o1.cap = 4 * 2 ^ k)) ∧
    (∀ (vp vp1 : VAL) (pairs : List (VAL × VAL)) (o1 : OBJECT VAL) (key : VAL) (i : Nat)
        (del : List VAL),
      vp.type_id = VAL_OBJECT → vp.type_data = VAL_type_data.object (some OBJECT_new) →
      insert_all tables vp pairs = .ok vp1 →
      vp1.type_data = VAL_type_data.object (some o1) →
      find_existing_key tables key o1.cap o1.array 0 = .ok (i, del) →
      i < (if i = o1.len then (if i = o1.cap then (if o1.cap > 0 then o1.cap * 2 else 4)
          else o1.cap)
        else o1.cap)) ∧
    (∀ (vp vp1 : VAL) (pairs : List (VAL × VAL)) (o1 : OBJECT VAL) (key val : VAL),
      vp.type_id = VAL_OBJECT → vp.type_data = VAL_type_data.object (some OBJECT_new) →
      insert_all tables vp pairs = .ok vp1 →
      vp1.type_data = VAL_type_data.object (some o1) →
      (∀ kv ∈ o1.array, ∃ r, VAL_is_equal tables kv.key key = .ok r) →
      ∃ out, VAL_default_move_from_key_val tables vp1 key val = .ok out) := by
  have hnew : bounds_ok OBJECT_new := ⟨by simp [OBJECT.len, OBJECT_new], Or.inl rfl⟩
  refine ⟨?_, ?_, ?_⟩
  · intro vp vp1 pairs hty hdata h
    obtain ⟨_, o1, hd1, hb1⟩ := insert_all_keeps_bounds tables pairs vp vp1 _ hty hdata hnew h
    exact ⟨o1, hd1, hb1.1, hb1.2⟩
  · intro vp vp1 pairs o1 key i del hty hdata h hd1 hf
    obtain ⟨_, o2, hd2, hb2⟩ :=
      insert_all_keeps_bounds tables pairs vp vp1 _ hty hdata hnew h
    rw [hd1] at hd2
    simp only [VAL_type_data.object.injEq, Option.some.injEq] at hd2
    subst hd2
    exact (write_index_in_bounds tables key o1 i del hb2.1 hf).2
  · intro vp vp1 pairs o1 key val hty hdata h hd1 hall
    obtain ⟨hty1, o2, hd2, hb2⟩ :=
      insert_all_keeps_bounds tables pairs vp vp1 _ hty hdata hnew h
    rw [hd1] at hd2
    simp only [VAL_type_data.object.injEq, Option.some.injEq] at hd2
    subst hd2
    exact move_returns_in_bounds tables vp1 key val o1 hty1 hd1 hb2.1 hall

theorem container_bounds_invariant_witness :
    (∃ o1 : OBJECT VAL,
      (object_val { array := [{ key := int_val 1, val := string_val ['a'] },
                              { key := int_val 2, val := string_val ['b'] },
                              { key := int_val 3, val := string_val ['c'] },
                              { key := int_val 4, val := string_val ['d'] },
                              { key := int_val 5, val := string_val ['e'] }],
                    cap := 8 }).type_data = VAL_type_data.object (some o1) ∧
        o1.len ≤ o1.cap ∧ (o1.cap = 0 ∨ ∃ k : Nat, o1.cap = 4 * 2 ^ k)) ∧
    (1 : Nat) <
      (if 1 = OBJECT.len
          ({ array := [{ key := int_val 1, val := string_val ['a'] }], cap := 4 } : OBJECT VAL)
        then (if 1 = 4 then (if 4 > 0 then 4 * 2 else 4) else 4) else 4) ∧
    (∃ out, VAL_default_move_from_key_val no_tables
        (object_val { array := [{ key := int_val 1, val := string_val ['a'] }], cap := 4 })
        (int_val 2) (string_val ['b']) = .ok out) :=
  ⟨(container_bounds_invariant no_tables).1 (object_val OBJECT_new) _
      [(int_val 1, string_val ['a']), (int_val 2, string_val ['b']),
        (int_val 3, string_val ['c']), (int_val 4, string_val ['d']),
        (int_val 5, string_val ['e'])] rfl rfl rfl,
    (container_bounds_invariant no_tables).2.1 (object_val OBJECT_new)
      (object_val { array := [{ key := int_val 1, val := string_val ['a'] }], cap := 4 })
      [(int_val 1, string_val ['a'])]
      { array := [{ key := int_val 1, val := string_val ['a'] }], cap := 4 }
      (int_val 2) 1 [] rfl rfl rfl rfl rfl,
    (container_bounds_invariant no_tables).2.2 (object_val OBJECT_new)
      (object_val { array := [{ key := int_val 1, val := string_val ['a'] }], cap := 4 })
      [(int_val 1, string_val ['a'])]
      { array := [{ key := int_val 1, val := string_val ['a'] }], cap := 4 }
      (int_val 2) (string_val ['b']) rfl rfl rfl rfl
      (by
        intro kv hkv
        simp only [List.mem_singleton] at hkv
        subst hkv
        exact ⟨OPS_RESULT.of OPS_RESULT_FALSE, rfl⟩)⟩

end TypeUnion
